import Mathlib

/-!
Verification development for the ambey-shop-ledger repository.

The definitions below are a shallow embedding of the ledger core found in
the most advanced revision of src/firebase/config.ts (the revision that
contains the party ledger and the CUSTOMER_DIRECT mirror sync).  The
Firestore document store is modelled as four lists of records; numbers are
modelled as Int, Firestore Timestamps as their millisecond value (Int,
absent dates as none).  Each exported async function of the source becomes
a pure state transformer returning the thrown error (if any) together with
the store state at the moment the function returns or throws, so that
partially committed sequences of writes are represented faithfully.

Firestore semantics baked into the embedding:
  - batch.update / tx.update on a missing document makes the whole commit
    fail without applying any write of that batch;
  - tx.set creates the document when absent and replaces it when present;
    fields absent from the written payload read back as their defaults
    (numbers as 0, strings as empty);
  - deleteDoc and batch.delete succeed whether or not the target exists;
  - Array.prototype.sort is a stable sort, modelled by a stable insertion
    sort on the same comparison key.
-/

namespace AmbeyLedger

/-- Stored customer document (collection shops/ambey-garments/customers). -/
structure CustomerDoc where
  id : String
  name : String
  phone : String
  address : String
  notes : String
  currentBalance : Int
  lastActivity : Option Int
deriving DecidableEq

/-- Stored customer ledger transaction document (collection transactions).
Fields are kept in raw stored form: type and paymentMode as strings, since
the source normalizes them on every read. -/
structure TxnDoc where
  id : String
  customerId : String
  type : String
  amount : Int
  note : String
  date : Option Int
  balanceAfter : Int
  paymentMode : String
  partyId : String
deriving DecidableEq

/-- Stored party (supplier) document (collection parties). -/
structure PartyDoc where
  id : String
  name : String
  phone : String
  notes : String
  currentDue : Int
  lastActivity : Option Int
deriving DecidableEq

/-- Stored party ledger transaction document (collection partyTransactions). -/
structure PartyTxnDoc where
  id : String
  partyId : String
  type : String
  amount : Int
  note : String
  date : Option Int
  dueAfter : Int
  customerId : String
deriving DecidableEq

/-- The document store: the four collections the ledger core touches. -/
structure Store where
  customers : List CustomerDoc
  transactions : List TxnDoc
  parties : List PartyDoc
  partyTransactions : List PartyTxnDoc
deriving DecidableEq

/-- TS union type TransactionType = CREDIT | PAYMENT (input side). -/
inductive TransactionType where
  | CREDIT
  | PAYMENT
deriving DecidableEq

def TransactionType.str : TransactionType → String
  | .CREDIT => "CREDIT"
  | .PAYMENT => "PAYMENT"

/-- TS union type PaymentMode = CASH | ONLINE | PARTY_DIRECT. -/
inductive PaymentMode where
  | CASH
  | ONLINE
  | PARTY_DIRECT
deriving DecidableEq

def PaymentMode.str : PaymentMode → String
  | .CASH => "CASH"
  | .ONLINE => "ONLINE"
  | .PARTY_DIRECT => "PARTY_DIRECT"

/-- TS type Exclude of PartyTransactionType without CUSTOMER_DIRECT, the
input type of savePartyTransaction. -/
inductive PartyInputType where
  | PURCHASE
  | PAYMENT
  | DISCOUNT
deriving DecidableEq

def PartyInputType.str : PartyInputType → String
  | .PURCHASE => "PURCHASE"
  | .PAYMENT => "PAYMENT"
  | .DISCOUNT => "DISCOUNT"

/-- SaveTransactionInput of the source. -/
structure SaveTransactionInput where
  id : Option String
  customerId : String
  type : TransactionType
  amount : Int
  note : Option String
  date : Int
  paymentMode : Option PaymentMode
  partyId : Option String
deriving DecidableEq

/-- SavePartyTransactionInput of the source. -/
structure SavePartyTransactionInput where
  id : Option String
  partyId : String
  type : PartyInputType
  amount : Int
  note : Option String
  date : Int
deriving DecidableEq

/-- Errors thrown by the source, classified per the taxonomy of the spec;
each constructor carries the literal message thrown by the code. -/
inductive AppError where
  | validationError (msg : String)
  | notFound (msg : String)
  | invalidOperation (msg : String)
  | storeFailure (msg : String)
deriving DecidableEq

/-- JS String.prototype.trim, modelled structurally over the character
list so that the kernel can evaluate it: whitespace is stripped from both
ends. -/
def trimString (s : String) : String :=
  ⟨((s.data.dropWhile Char.isWhitespace).reverse.dropWhile Char.isWhitespace).reverse⟩

/-- normalizeTransactionType of the source. -/
def normalizeTransactionType (raw : String) : String :=
  if raw = "PAYMENT" ∨ raw = "OUT" then "PAYMENT" else "CREDIT"

/-- normalizePaymentMode of the source. -/
def normalizePaymentMode (raw : String) : String :=
  if raw = "ONLINE" ∨ raw = "PARTY_DIRECT" then raw else "CASH"

/-- Stable insertion into a list sorted ascending by the given key; the new
element goes before the first existing element with a key that is not
smaller, which keeps earlier elements of the original list first on ties. -/
def insertByKey (key : α → Int) (x : α) : List α → List α
  | [] => [x]
  | y :: ys => if key x ≤ key y then x :: y :: ys else y :: insertByKey key x ys

/-- Stable ascending sort by an Int key; extensionally the unique stable
sort, hence the behavior of JS Array.prototype.sort with the numeric
comparator used by the source. -/
def sortByKey (key : α → Int) : List α → List α
  | [] => []
  | x :: xs => insertByKey key x (sortByKey key xs)

/-- Sort key of a customer transaction: date millis with fallback 0, as in
the comparator of recalculateCustomerBalance. -/
def txnDateKey (t : TxnDoc) : Int := t.date.getD 0

/-- Sort key of a party transaction, same fallback. -/
def partyTxnDateKey (m : PartyTxnDoc) : Int := m.date.getD 0

/-- Signed delta applied by the customer fold: plus amount for (normalized)
CREDIT, minus amount otherwise (PAYMENT). -/
def customerDelta (t : TxnDoc) : Int :=
  if normalizeTransactionType t.type = "CREDIT" then t.amount else -t.amount

/-- Signed delta applied by the party fold: plus amount for PURCHASE, minus
amount for every other stored type. -/
def partyDelta (m : PartyTxnDoc) : Int :=
  if m.type = "PURCHASE" then m.amount else -m.amount

/-- The per-document updates issued by the loop of
recalculateCustomerBalance: each document receives its normalized type and
the running balance after its own delta. -/
def applyCustomerEntries (bal : Int) : List TxnDoc → List TxnDoc
  | [] => []
  | t :: ts =>
      { t with type := normalizeTransactionType t.type,
               balanceAfter := bal + customerDelta t }
        :: applyCustomerEntries (bal + customerDelta t) ts

/-- The per-document updates issued by the loop of recalculatePartyDue. -/
def applyPartyEntries (due : Int) : List PartyTxnDoc → List PartyTxnDoc
  | [] => []
  | m :: ms =>
      { m with dueAfter := due + partyDelta m } :: applyPartyEntries (due + partyDelta m) ms

/-- Final running total of the customer fold. -/
def customerFinal (bal : Int) (l : List TxnDoc) : Int :=
  l.foldl (fun b t => b + customerDelta t) bal

/-- Final running total of the party fold. -/
def partyFinal (due : Int) (l : List PartyTxnDoc) : Int :=
  l.foldl (fun b m => b + partyDelta m) due

/-- The lastActivity tracking of both recalculators: fold over the ordered
dates, remembering the latest present date. -/
def lastDate (la : Option Int) : List (Option Int) → Option Int
  | [] => la
  | d :: ds => lastDate (match d with | some x => some x | none => la) ds

/-- Applies the updates of a recalculation batch to one stored document:
the document is replaced by its recomputed version when its id is among
the recomputed ones, and kept otherwise. -/
def recalcUpdate (updated : List TxnDoc) (t : TxnDoc) : TxnDoc :=
  (updated.find? (fun u => u.id == t.id)).getD t

/-- Same for party ledger batches. -/
def recalcPartyUpdate (updated : List PartyTxnDoc) (m : PartyTxnDoc) : PartyTxnDoc :=
  (updated.find? (fun u => u.id == m.id)).getD m

/-- The snapshot read by recalculateCustomerBalance: every stored
transaction of the customer, in retrieval order. -/
def customerSnapshot (s : Store) (customerId : String) : List TxnDoc :=
  s.transactions.filter (fun t => t.customerId == customerId)

/-- The snapshot sorted ascending by date, missing dates keyed 0, ties kept
in retrieval order. -/
def customerOrdered (s : Store) (customerId : String) : List TxnDoc :=
  sortByKey txnDateKey (customerSnapshot s customerId)

/-- The per-document updates of one customer recalculation batch. -/
def customerUpdatedDocs (s : Store) (customerId : String) : List TxnDoc :=
  applyCustomerEntries 0 (customerOrdered s customerId)

/-- recalculateCustomerBalance of the source: query the customer ledger,
stable-sort ascending by date (fallback key 0), fold from 0 writing each
post-fold total into balanceAfter (and the normalized type), then write the
final total and lastActivity to the customer document, all in one batch.
The batch commit fails when the customer document is absent, because
batch.update requires the target to exist. -/
def recalculateCustomerBalance (customerId : String) (s : Store) :
    Except AppError Unit × Store :=
  if s.customers.any (fun c => c.id == customerId) then
    (Except.ok (),
      { s with
        transactions := s.transactions.map (recalcUpdate (customerUpdatedDocs s customerId)),
        customers := s.customers.map (fun c =>
          if c.id = customerId then
            { c with currentBalance := customerFinal 0 (customerOrdered s customerId),
                     lastActivity := lastDate none ((customerOrdered s customerId).map (fun t => t.date)) }
          else c) })
  else
    (Except.error (AppError.storeFailure "No document to update"), s)

/-- The snapshot read by recalculatePartyDue. -/
def partySnapshot (s : Store) (partyId : String) : List PartyTxnDoc :=
  s.partyTransactions.filter (fun m => m.partyId == partyId)

/-- The party snapshot in date order. -/
def partyOrdered (s : Store) (partyId : String) : List PartyTxnDoc :=
  sortByKey partyTxnDateKey (partySnapshot s partyId)

/-- The per-document updates of one party recalculation batch. -/
def partyUpdatedDocs (s : Store) (partyId : String) : List PartyTxnDoc :=
  applyPartyEntries 0 (partyOrdered s partyId)

/-- recalculatePartyDue of the source, the same algorithm on the party
ledger: due increases by amount for PURCHASE and decreases by amount for
every other type. -/
def recalculatePartyDue (partyId : String) (s : Store) :
    Except AppError Unit × Store :=
  if s.parties.any (fun p => p.id == partyId) then
    (Except.ok (),
      { s with
        partyTransactions := s.partyTransactions.map (recalcPartyUpdate (partyUpdatedDocs s partyId)),
        parties := s.parties.map (fun p =>
          if p.id = partyId then
            { p with currentDue := partyFinal 0 (partyOrdered s partyId),
                     lastActivity := lastDate none ((partyOrdered s partyId).map (fun m => m.date)) }
          else p) })
  else
    (Except.error (AppError.storeFailure "No document to update"), s)

/-- Sequencing of the awaited steps of the source: a thrown error aborts
the remaining steps and surfaces to the caller, keeping every write already
committed by the earlier steps. -/
def andThen (r : Except AppError Unit × Store)
    (k : Store → Except AppError Unit × Store) : Except AppError Unit × Store :=
  match r with
  | (Except.ok _, s) => k s
  | (Except.error e, s) => (Except.error e, s)

/-- tx.set on a party transaction document: replace when a document with
that id exists, create it otherwise.  Fields missing from the written
payload (dueAfter) read back as 0, so the caller supplies the full record
with those defaults. -/
def setPartyTxn (s : Store) (docNew : PartyTxnDoc) : Store :=
  if s.partyTransactions.any (fun m => m.id == docNew.id) then
    { s with partyTransactions :=
        s.partyTransactions.map (fun m => if m.id == docNew.id then docNew else m) }
  else
    { s with partyTransactions := s.partyTransactions ++ [docNew] }

/-- The existing argument of syncCustomerDirectPartyPayment. -/
structure SyncExisting where
  id : String
  partyId : String
deriving DecidableEq

/-- First half of syncCustomerDirectPartyPayment: when a party transaction
with the existing id is stored, delete it, then recalculate the due of the
party recorded on that stored document (when non-empty). -/
def syncMirrorDelete (exId : String) (s : Store) : Except AppError Unit × Store :=
  match s.partyTransactions.find? (fun m => m.id == exId) with
  | some prev =>
      let s1 := { s with partyTransactions :=
          s.partyTransactions.filter (fun m => !(m.id == exId)) }
      if prev.partyId = "" then (Except.ok (), s1)
      else recalculatePartyDue prev.partyId s1
  | none => (Except.ok (), s)

/-- The CUSTOMER_DIRECT mirror document written by the sync: the payload of
its tx.set call, with the fields absent from that payload (dueAfter) at
their read-back default. -/
def mirrorDoc (inputPartyId : String) (amount : Int) (note : Option String)
    (date : Int) (customerId mirrorId : String) : PartyTxnDoc :=
  { id := mirrorId, partyId := inputPartyId, type := "CUSTOMER_DIRECT",
    amount := amount, note := trimString (note.getD ""), date := some date,
    dueAfter := 0, customerId := customerId }

/-- Second half of syncCustomerDirectPartyPayment: when the new state names
a party, write the CUSTOMER_DIRECT mirror under mirrorId and recalculate
that party due. -/
def syncMirrorCreate (inputPartyId : String) (amount : Int) (note : Option String)
    (date : Int) (customerId : String) (mirrorId : String) (s2 : Store) :
    Except AppError Unit × Store :=
  if inputPartyId = "" then (Except.ok (), s2)
  else
    let s3 := setPartyTxn s2 (mirrorDoc inputPartyId amount note date customerId mirrorId)
    recalculatePartyDue inputPartyId s3

/-- syncCustomerDirectPartyPayment of the source.  When an existing id is
supplied and a party transaction with that id is stored, it is deleted and
the due of the party recorded on that stored document is recalculated; then,
when the new state names a party, a CUSTOMER_DIRECT mirror carrying the
same amount, trimmed note, date and originating customerId is written under
the existing id (or under freshMirrorId when no existing id was supplied,
standing for the id generated by doc()) and that party due is recalculated. -/
def syncCustomerDirectPartyPayment (inputPartyId : String) (amount : Int)
    (note : Option String) (date : Int) (customerId : String)
    (existing : Option SyncExisting) (freshMirrorId : String) (s : Store) :
    Except AppError Unit × Store :=
  andThen
    (match existing with
     | some ex => syncMirrorDelete ex.id s
     | none => (Except.ok (), s))
    (syncMirrorCreate inputPartyId amount note date customerId
      (match existing with | some ex => ex.id | none => freshMirrorId))

/-- Turns the Unit result of the trailing steps of saveTransaction into the
returned transaction id. -/
def toRef (ref : String) (r : Except AppError Unit × Store) :
    Except AppError String × Store :=
  (r.1.map (fun _ => ref), r.2)

/-- The steps of saveTransaction after the core write committed: balance
recalculation for the owning customer, then the mirror sync, which runs for
every PAYMENT and also for a non-PAYMENT that previously had a PARTY_DIRECT
target (so that the stale mirror is removed). -/
def saveTransactionFinish (input : SaveTransactionInput)
    (ref oldDirectPartyId partyId : String) (s1 : Store) :
    Except AppError String × Store :=
  match recalculateCustomerBalance input.customerId s1 with
  | (Except.error e, s2) => (Except.error e, s2)
  | (Except.ok _, s2) =>
      if input.type = TransactionType.PAYMENT then
        toRef ref (syncCustomerDirectPartyPayment partyId input.amount input.note
          input.date input.customerId (some ⟨ref, oldDirectPartyId⟩) ref s2)
      else if oldDirectPartyId ≠ "" then
        toRef ref (syncCustomerDirectPartyPayment "" input.amount none
          input.date input.customerId (some ⟨ref, oldDirectPartyId⟩) ref s2)
      else (Except.ok ref, s2)

/-- The write step of saveTransaction, after validation: paymentMode and
partyId are the values computed by the validation prefix.  An edit requires
the target to exist and captures its previous PARTY_DIRECT target (raw
stored type compared against PAYMENT, mode normalized) before the update;
a create appends a fresh document; both then run the finish sequence. -/
def saveTransactionWrite (input : SaveTransactionInput) (freshId paymentMode partyId : String)
    (s : Store) : Except AppError String × Store :=
  match input.id with
  | some tid =>
      match s.transactions.find? (fun t => t.id == tid) with
      | none => (Except.error (AppError.notFound "Transaction not found."), s)
      | some existing =>
          saveTransactionFinish input tid
            (if existing.type = "PAYMENT" ∧
                normalizePaymentMode existing.paymentMode = "PARTY_DIRECT" then
              existing.partyId
            else "")
            partyId
            { s with transactions := s.transactions.map (fun t =>
                if t.id == tid then
                  { t with customerId := input.customerId,
                           type := TransactionType.str input.type,
                           amount := input.amount,
                           note := trimString (input.note.getD ""),
                           date := some input.date,
                           paymentMode := paymentMode,
                           partyId := partyId }
                else t) }
  | none =>
      saveTransactionFinish input freshId "" partyId
        { s with transactions := s.transactions ++
            [{ id := freshId, customerId := input.customerId,
               type := TransactionType.str input.type, amount := input.amount,
               note := trimString (input.note.getD ""), date := some input.date,
               balanceAfter := 0, paymentMode := paymentMode, partyId := partyId }] }

/-- saveTransaction of the source.  freshId stands for the id generated by
doc() and is used only when input.id is absent.  Validation failures and a
NotFound on edit abort before any write; later failures (for instance a
recalculation hitting a missing customer or party document) surface after
the writes already committed, as in the source. -/
def saveTransaction (input : SaveTransactionInput) (freshId : String) (s : Store) :
    Except AppError String × Store :=
  if input.customerId = "" then
    (Except.error (AppError.validationError "Customer is required."), s)
  else if input.amount ≤ 0 then
    (Except.error (AppError.validationError "Amount should be greater than zero."), s)
  else if input.type = TransactionType.PAYMENT ∧
      normalizePaymentMode ((input.paymentMode.map PaymentMode.str).getD "CASH") = "PARTY_DIRECT" ∧
      (if normalizePaymentMode ((input.paymentMode.map PaymentMode.str).getD "CASH") = "PARTY_DIRECT"
       then trimString (input.partyId.getD "") else "") = "" then
    (Except.error (AppError.validationError "Select party for direct payment mode."), s)
  else
    saveTransactionWrite input freshId
      (normalizePaymentMode ((input.paymentMode.map PaymentMode.str).getD "CASH"))
      (if normalizePaymentMode ((input.paymentMode.map PaymentMode.str).getD "CASH") = "PARTY_DIRECT"
       then trimString (input.partyId.getD "") else "") s

/-- Tail of deleteTransaction: when the stored payment mode normalizes to
PARTY_DIRECT, the mirror stored under the same id is deleted when present,
then the stored party due is recalculated (when the stored partyId is
non-empty). -/
def deleteTransactionMirrorStep (transactionId paymentMode partyId : String)
    (s2 : Store) : Except AppError Unit × Store :=
  if paymentMode = "PARTY_DIRECT" then
    let s3 :=
      if s2.partyTransactions.any (fun m => m.id == transactionId) then
        { s2 with partyTransactions :=
            s2.partyTransactions.filter (fun m => !(m.id == transactionId)) }
      else s2
    if partyId = "" then (Except.ok (), s3)
    else recalculatePartyDue partyId s3
  else (Except.ok (), s2)

/-- deleteTransaction of the source: look up the stored transaction, delete
it, recalculate the owning customer (when the stored customerId is
non-empty), then run the mirror cleanup step above with the stored payment
mode and partyId. -/
def deleteTransaction (transactionId : String) (s : Store) :
    Except AppError Unit × Store :=
  match s.transactions.find? (fun t => t.id == transactionId) with
  | none => (Except.ok (), s)
  | some t =>
      let s1 := { s with transactions :=
          s.transactions.filter (fun u => !(u.id == transactionId)) }
      andThen
        (if t.customerId = "" then (Except.ok (), s1)
         else recalculateCustomerBalance t.customerId s1)
        (deleteTransactionMirrorStep transactionId (normalizePaymentMode t.paymentMode)
          t.partyId)

/-- deleteCustomer of the source: one batch removing every ledger
transaction of the customer and the customer document itself; nothing else
is touched and no recalculation runs. -/
def deleteCustomer (customerId : String) (s : Store) :
    Except AppError Unit × Store :=
  (Except.ok (),
    { s with
      transactions := s.transactions.filter (fun t => !(t.customerId == customerId)),
      customers := s.customers.filter (fun c => !(c.id == customerId)) })

/-- savePartyTransaction of the source: validation, then create or update
(update requires the document to exist, with no check of its stored type),
then a due recalculation for the named party. -/
def savePartyTransaction (input : SavePartyTransactionInput) (freshId : String)
    (s : Store) : Except AppError String × Store :=
  if input.partyId = "" then
    (Except.error (AppError.validationError "Party is required."), s)
  else if input.amount ≤ 0 then
    (Except.error (AppError.validationError "Amount should be greater than zero."), s)
  else
    match input.id with
    | some tid =>
        match s.partyTransactions.find? (fun m => m.id == tid) with
        | none => (Except.error (AppError.notFound "Transaction not found."), s)
        | some _ =>
            let s1 := { s with partyTransactions := s.partyTransactions.map (fun m =>
                if m.id == tid then
                  { m with partyId := input.partyId, type := PartyInputType.str input.type,
                           amount := input.amount, note := trimString (input.note.getD ""),
                           date := some input.date }
                else m) }
            toRef tid (recalculatePartyDue input.partyId s1)
    | none =>
        let s1 := { s with partyTransactions := s.partyTransactions ++
            [{ id := freshId, partyId := input.partyId,
               type := PartyInputType.str input.type, amount := input.amount,
               note := trimString (input.note.getD ""), date := some input.date,
               dueAfter := 0, customerId := "" }] }
        toRef freshId (recalculatePartyDue input.partyId s1)

/-- deletePartyTransaction of the source: a missing id returns silently; a
stored CUSTOMER_DIRECT entry makes the call fail before any write; any
other entry is deleted and its party due recalculated when the stored
partyId is non-empty. -/
def deletePartyTransaction (transactionId : String) (s : Store) :
    Except AppError Unit × Store :=
  match s.partyTransactions.find? (fun m => m.id == transactionId) with
  | none => (Except.ok (), s)
  | some m =>
      if m.type = "CUSTOMER_DIRECT" then
        (Except.error (AppError.invalidOperation
          "Direct customer payment entries are managed from customer transactions."), s)
      else
        let partyId := m.partyId
        let s1 := { s with partyTransactions :=
            s.partyTransactions.filter (fun u => !(u.id == transactionId)) }
        if partyId = "" then (Except.ok (), s1)
        else recalculatePartyDue partyId s1

/-- deleteParty of the source: one batch removing every party transaction
of the party whose stored type is not CUSTOMER_DIRECT, and the party
document itself; CUSTOMER_DIRECT entries are left in place. -/
def deleteParty (partyId : String) (s : Store) : Except AppError Unit × Store :=
  (Except.ok (),
    { s with
      partyTransactions := s.partyTransactions.filter (fun m =>
        !(m.partyId == partyId && !(m.type == "CUSTOMER_DIRECT"))),
      parties := s.parties.filter (fun p => !(p.id == partyId)) })

/-! Specification-side definitions: expressions of the properties claimed
by the spec, to be compared with the outputs of the embedded code. -/

/-- Spec form: the signed prefix sum of the customer fold, up to and
including the transaction with the given id, in the order of the list. -/
def prefixUpTo (l : List TxnDoc) (i : String) : Int :=
  match l with
  | [] => 0
  | t :: ts => if t.id = i then customerDelta t else customerDelta t + prefixUpTo ts i

/-- Spec form: the signed prefix sum of the party fold. -/
def partyPrefixUpTo (l : List PartyTxnDoc) (i : String) : Int :=
  match l with
  | [] => 0
  | m :: ms => if m.id = i then partyDelta m else partyDelta m + partyPrefixUpTo ms i

/-- A customer transaction that must own a mirror: a PAYMENT whose payment
mode normalizes to PARTY_DIRECT with a non-empty partyId. -/
def isDirect (t : TxnDoc) : Prop :=
  t.type = "PAYMENT" ∧ normalizePaymentMode t.paymentMode = "PARTY_DIRECT" ∧ t.partyId ≠ ""

instance (t : TxnDoc) : Decidable (isDirect t) :=
  inferInstanceAs (Decidable (t.type = "PAYMENT" ∧
    normalizePaymentMode t.paymentMode = "PARTY_DIRECT" ∧ t.partyId ≠ ""))

/-- The party entry required by the mirror invariant: a CUSTOMER_DIRECT
entry of the target party carrying the same amount, date and originating
customer. -/
def mirrorMatches (t : TxnDoc) (m : PartyTxnDoc) : Prop :=
  m.type = "CUSTOMER_DIRECT" ∧ m.partyId = t.partyId ∧ m.amount = t.amount ∧
    m.date = t.date ∧ m.customerId = t.customerId

instance (t : TxnDoc) (m : PartyTxnDoc) : Decidable (mirrorMatches t m) :=
  inferInstanceAs (Decidable (m.type = "CUSTOMER_DIRECT" ∧ m.partyId = t.partyId ∧
    m.amount = t.amount ∧ m.date = t.date ∧ m.customerId = t.customerId))

/-- The mirror obligation of one customer transaction: a direct payment
owns exactly one party transaction stored under its id, and that document
is a matching CUSTOMER_DIRECT entry; any other customer transaction owns no
CUSTOMER_DIRECT document under its id. -/
def mirrorObligation (t : TxnDoc) (ms : List PartyTxnDoc) : Prop :=
  (isDirect t →
    ms.countP (fun m => m.id == t.id) = 1 ∧
      ∀ m ∈ ms, m.id = t.id → mirrorMatches t m) ∧
  (¬ isDirect t → ∀ m ∈ ms, m.id = t.id → m.type ≠ "CUSTOMER_DIRECT")

instance (t : TxnDoc) (ms : List PartyTxnDoc) : Decidable (mirrorObligation t ms) := by
  unfold mirrorObligation; infer_instance

/-- Mirror 1:1 invariant of the spec.  The implementation keys a mirror by
the id of the originating customer transaction, so the one-to-one
correspondence is stated over that key. -/
def MirrorInv (ts : List TxnDoc) (ms : List PartyTxnDoc) : Prop :=
  ∀ t ∈ ts, mirrorObligation t ms

instance (ts : List TxnDoc) (ms : List PartyTxnDoc) : Decidable (MirrorInv ts ms) := by
  unfold MirrorInv; infer_instance

/-- Stored customer transaction types are the canonical strings written by
the current revision; every write path of the source maintains this. -/
def canonicalTypes (ts : List TxnDoc) : Prop :=
  ∀ t ∈ ts, t.type = "CREDIT" ∨ t.type = "PAYMENT"

instance (ts : List TxnDoc) : Decidable (canonicalTypes ts) := by
  unfold canonicalTypes; infer_instance

/-- Spec form: the signed total of a party ledger, PURCHASE positive and
everything else negative. -/
def partyLedgerTotal (ms : List PartyTxnDoc) (p : String) : Int :=
  ((ms.filter (fun m => m.partyId == p)).map partyDelta).sum

/-- The stored due of a party agrees with the signed total of its stored
ledger: the state a due recalculation leaves behind. -/
def dueConsistent (s : Store) (p : String) : Prop :=
  ∀ pa ∈ s.parties, pa.id = p → pa.currentDue = partyLedgerTotal s.partyTransactions p

instance (s : Store) (p : String) : Decidable (dueConsistent s p) := by
  unfold dueConsistent; infer_instance

deriving instance DecidableEq for Except

/-! Small concrete stores used to evaluate the verified statements. -/

/-- A store with one customer holding a CREDIT of 500 on day 1 and a
PAYMENT of 200 on day 2, plus an unrelated transaction of a second
customer. -/
def demoStore : Store :=
  { customers := [⟨"c1", "Asha", "", "", "", 0, none⟩, ⟨"c2", "Bina", "", "", "", 0, none⟩],
    transactions :=
      [⟨"t2", "c1", "PAYMENT", 200, "", some 2, 0, "CASH", ""⟩,
       ⟨"t1", "c1", "CREDIT", 500, "", some 1, 0, "CASH", ""⟩,
       ⟨"t3", "c2", "CREDIT", 50, "", some 1, 0, "CASH", ""⟩],
    parties := [⟨"p1", "Mill", "", "", 0, none⟩, ⟨"p2", "Yarn", "", "", 0, none⟩],
    partyTransactions :=
      [⟨"m1", "p1", "PURCHASE", 400, "", some 1, 0, ""⟩,
       ⟨"m2", "p1", "DISCOUNT", 40, "", some 3, 0, ""⟩,
       ⟨"m3", "p2", "PURCHASE", 90, "", some 2, 0, ""⟩] }

/-- A store whose customer c1 has one transaction without a date and one
dated payment, exercising the lastActivity edge cases. -/
def demoStoreNoDate : Store :=
  { customers := [⟨"c1", "Asha", "", "", "", 0, none⟩],
    transactions :=
      [⟨"t1", "c1", "CREDIT", 500, "", none, 0, "CASH", ""⟩,
       ⟨"t2", "c1", "PAYMENT", 200, "", some 5, 0, "CASH", ""⟩],
    parties := [],
    partyTransactions := [] }

/-- A store holding one direct customer payment and its CUSTOMER_DIRECT
mirror, stored under the id of the originating transaction. -/
def demoStoreC3 : Store :=
  { customers := [⟨"c1", "Asha", "", "", "", -300, none⟩],
    transactions :=
      [⟨"t1", "c1", "PAYMENT", 300, "", some 1, -300, "PARTY_DIRECT", "p1"⟩],
    parties := [⟨"p1", "Mill", "", "", -300, some 1⟩, ⟨"p2", "Yarn", "", "", 0, none⟩],
    partyTransactions :=
      [⟨"t1", "p1", "CUSTOMER_DIRECT", 300, "", some 1, -300, "c1"⟩] }

/-! Lemmas about the stable sort. -/

theorem insertByKey_perm (key : α → Int) (x : α) (l : List α) :
    (insertByKey key x l).Perm (x :: l) := by
  induction l with
  | nil => simp [insertByKey]
  | cons y ys ih =>
      simp only [insertByKey]
      split
      · exact List.Perm.refl _
      · exact (ih.cons y).trans (List.Perm.swap x y ys)

theorem sortByKey_perm (key : α → Int) (l : List α) : (sortByKey key l).Perm l := by
  induction l with
  | nil => simp [sortByKey]
  | cons x xs ih =>
      simp only [sortByKey]
      exact (insertByKey_perm key x _).trans (ih.cons x)

theorem insertByKey_pairwise (key : α → Int) (x : α) (l : List α)
    (h : l.Pairwise (fun a b => key a ≤ key b)) :
    (insertByKey key x l).Pairwise (fun a b => key a ≤ key b) := by
  induction l with
  | nil => simp [insertByKey]
  | cons y ys ih =>
      rcases List.pairwise_cons.1 h with ⟨hy, hys⟩
      simp only [insertByKey]
      split
      · rename_i hxy
        refine List.pairwise_cons.2 ⟨?_, h⟩
        intro z hz
        rcases List.mem_cons.1 hz with rfl | hz'
        · exact hxy
        · exact le_trans hxy (hy z hz')
      · rename_i hxy
        have hyx : key y ≤ key x := le_of_not_le hxy
        refine List.pairwise_cons.2 ⟨?_, ih hys⟩
        intro z hz
        rcases List.mem_cons.1 ((insertByKey_perm key x ys).mem_iff.1 hz) with rfl | hz'
        · exact hyx
        · exact hy z hz'

theorem sortByKey_pairwise (key : α → Int) (l : List α) :
    (sortByKey key l).Pairwise (fun a b => key a ≤ key b) := by
  induction l with
  | nil => simp [sortByKey]
  | cons x xs ih =>
      simp only [sortByKey]
      exact insertByKey_pairwise key x _ ih

theorem insertByKey_map (key : α → Int) (keyb : β → Int) (f : α → β)
    (hf : ∀ a, keyb (f a) = key a) (x : α) (l : List α) :
    insertByKey keyb (f x) (l.map f) = (insertByKey key x l).map f := by
  induction l with
  | nil => simp [insertByKey]
  | cons y ys ih =>
      simp only [List.map_cons, insertByKey, hf]
      by_cases hxy : key x ≤ key y
      · simp [if_pos hxy]
      · simp [if_neg hxy, ih]

theorem sortByKey_map (key : α → Int) (keyb : β → Int) (f : α → β)
    (hf : ∀ a, keyb (f a) = key a) (l : List α) :
    sortByKey keyb (l.map f) = (sortByKey key l).map f := by
  induction l with
  | nil => simp [sortByKey]
  | cons x xs ih =>
      simp only [List.map_cons, sortByKey]
      rw [ih, insertByKey_map key keyb f hf]

/-! Lemmas about type normalization. -/

theorem normalizeTransactionType_cases (r : String) :
    normalizeTransactionType r = "CREDIT" ∨ normalizeTransactionType r = "PAYMENT" := by
  unfold normalizeTransactionType
  split
  · exact Or.inr rfl
  · exact Or.inl rfl

theorem normalizeTransactionType_idem (r : String) :
    normalizeTransactionType (normalizeTransactionType r) = normalizeTransactionType r := by
  unfold normalizeTransactionType
  split <;> decide

theorem normalizeTransactionType_of_canonical (r : String)
    (h : r = "CREDIT" ∨ r = "PAYMENT") : normalizeTransactionType r = r := by
  rcases h with rfl | rfl <;> decide

/-! A generic lemma: replacing each element of a list by the element of an
update batch stored under the same key reproduces the batch, when the keys
agree position by position and are free of duplicates. -/

theorem map_lookup_eq (idOf : α → String) (l U : List α)
    (hids : U.map idOf = l.map idOf) (hnd : (l.map idOf).Nodup) :
    l.map (fun t => (U.find? (fun u => idOf u == idOf t)).getD t) = U := by
  induction l generalizing U with
  | nil =>
      cases U with
      | nil => rfl
      | cons u us => simp at hids
  | cons t ts ih =>
      cases U with
      | nil => simp at hids
      | cons u us =>
          simp only [List.map_cons, List.cons.injEq] at hids
          obtain ⟨hu, hus⟩ := hids
          rw [List.map_cons] at hnd
          have hnotmem := (List.nodup_cons.1 hnd).1
          have hnd' := (List.nodup_cons.1 hnd).2
          simp only [List.map_cons]
          have hfind : (List.find? (fun u' => idOf u' == idOf t) (u :: us)).getD t = u := by
            rw [List.find?_cons_of_pos]
            · rfl
            · simp [hu]
          rw [hfind]
          have htail : ts.map (fun t' => (List.find? (fun u' => idOf u' == idOf t') (u :: us)).getD t')
              = ts.map (fun t' => (List.find? (fun u' => idOf u' == idOf t') us).getD t') := by
            apply List.map_congr_left
            intro t' ht'
            have hne : idOf u ≠ idOf t' := by
              rw [hu]
              intro hcontra
              exact hnotmem (hcontra ▸ List.mem_map_of_mem (fun z => idOf z) ht')
            rw [List.find?_cons_of_neg]
            simp [hne]
          rw [htail, ih us hus hnd']

/-! Lemmas about the customer fold. -/

theorem applyCustomerEntries_map_id (bal : Int) (l : List TxnDoc) :
    (applyCustomerEntries bal l).map (fun t => t.id) = l.map (fun t => t.id) := by
  induction l generalizing bal with
  | nil => rfl
  | cons t ts ih => simp [applyCustomerEntries, ih]

theorem applyCustomerEntries_map_date (bal : Int) (l : List TxnDoc) :
    (applyCustomerEntries bal l).map (fun t => t.date) = l.map (fun t => t.date) := by
  induction l generalizing bal with
  | nil => rfl
  | cons t ts ih => simp [applyCustomerEntries, ih]

theorem customerDelta_apply (bal : Int) (t : TxnDoc) :
    customerDelta { t with type := normalizeTransactionType t.type,
                           balanceAfter := bal + customerDelta t } = customerDelta t := by
  unfold customerDelta
  simp only [normalizeTransactionType_idem]

theorem applyCustomerEntries_map_delta (bal : Int) (l : List TxnDoc) :
    (applyCustomerEntries bal l).map customerDelta = l.map customerDelta := by
  induction l generalizing bal with
  | nil => rfl
  | cons t ts ih => simp [applyCustomerEntries, ih, customerDelta_apply]

theorem applyCustomerEntries_mem (bal : Int) (l : List TxnDoc) (u : TxnDoc)
    (hu : u ∈ applyCustomerEntries bal l) :
    ∃ t ∈ l, ∃ b : Int,
      u = { t with type := normalizeTransactionType t.type, balanceAfter := b } := by
  induction l generalizing bal with
  | nil => simp [applyCustomerEntries] at hu
  | cons t ts ih =>
      simp only [applyCustomerEntries, List.mem_cons] at hu
      rcases hu with rfl | hu
      · exact ⟨t, List.mem_cons_self t ts, bal + customerDelta t, rfl⟩
      · obtain ⟨t', ht', b, hb⟩ := ih _ hu
        exact ⟨t', List.mem_cons_of_mem t ht', b, hb⟩

theorem customerFinal_eq_sum (bal : Int) (l : List TxnDoc) :
    customerFinal bal l = bal + (l.map customerDelta).sum := by
  induction l generalizing bal with
  | nil => simp [customerFinal]
  | cons t ts ih =>
      show customerFinal (bal + customerDelta t) ts = _
      rw [ih]
      simp only [List.map_cons, List.sum_cons]
      ring

theorem customerDelta_split (l : List TxnDoc) :
    (l.map customerDelta).sum =
      ((l.filter (fun t => normalizeTransactionType t.type == "CREDIT")).map
          (fun t => t.amount)).sum -
        ((l.filter (fun t => normalizeTransactionType t.type == "PAYMENT")).map
          (fun t => t.amount)).sum := by
  induction l with
  | nil => simp
  | cons t ts ih =>
      rcases normalizeTransactionType_cases t.type with hc | hp
      · have hne : ¬ (normalizeTransactionType t.type == "PAYMENT") = true := by
          simp [hc]
        have hdelta : customerDelta t = t.amount := by simp [customerDelta, hc]
        simp only [List.map_cons, List.sum_cons, List.filter_cons]
        rw [if_pos (by simp [hc]), if_neg hne]
        simp only [List.map_cons, List.sum_cons, hdelta, ih]
        ring
      · have hne : ¬ (normalizeTransactionType t.type == "CREDIT") = true := by
          simp [hp]
        have hdelta : customerDelta t = -t.amount := by
          simp [customerDelta, hp]
        simp only [List.map_cons, List.sum_cons, List.filter_cons]
        rw [if_neg hne, if_pos (by simp [hp])]
        simp only [List.map_cons, List.sum_cons, hdelta, ih]
        ring

theorem applyCustomerEntries_balance (bal : Int) (l : List TxnDoc)
    (hnd : (l.map (fun t => t.id)).Nodup) (u : TxnDoc)
    (hu : u ∈ applyCustomerEntries bal l) :
    u.balanceAfter = bal + prefixUpTo l u.id := by
  induction l generalizing bal with
  | nil => simp [applyCustomerEntries] at hu
  | cons t ts ih =>
      rw [List.map_cons] at hnd
      have hnotmem := (List.nodup_cons.1 hnd).1
      have hnd' := (List.nodup_cons.1 hnd).2
      simp only [applyCustomerEntries, List.mem_cons] at hu
      rcases hu with rfl | hu
      · simp [prefixUpTo]
      · have hid : u.id ∈ ts.map (fun t => t.id) := by
          have := applyCustomerEntries_map_id (bal + customerDelta t) ts
          rw [← this]
          exact List.mem_map_of_mem (fun t => t.id) hu
        have hne : ¬ t.id = u.id := fun hcontra => hnotmem (hcontra ▸ hid)
        rw [ih _ hnd' hu]
        simp only [prefixUpTo]
        rw [if_neg hne]
        ring

/-! Characterization of the customer recalculation. -/

theorem recalcCustomer_ok (c : String) (s : Store)
    (hc : s.customers.any (fun cu => cu.id == c) = true) :
    recalculateCustomerBalance c s =
      (Except.ok (),
        { s with
          transactions := s.transactions.map (recalcUpdate (customerUpdatedDocs s c)),
          customers := s.customers.map (fun cu =>
            if cu.id = c then
              { cu with currentBalance := customerFinal 0 (customerOrdered s c),
                        lastActivity := lastDate none ((customerOrdered s c).map (fun t => t.date)) }
            else cu) }) := by
  unfold recalculateCustomerBalance
  rw [if_pos hc]

theorem recalcCustomer_err (c : String) (s : Store)
    (hc : ¬ s.customers.any (fun cu => cu.id == c) = true) :
    recalculateCustomerBalance c s =
      (Except.error (AppError.storeFailure "No document to update"), s) := by
  unfold recalculateCustomerBalance
  rw [if_neg hc]

theorem recalcCustomer_ok_elim (c : String) (s s' : Store)
    (h : recalculateCustomerBalance c s = (Except.ok (), s')) :
    s.customers.any (fun cu => cu.id == c) = true ∧
    s' = { s with
      transactions := s.transactions.map (recalcUpdate (customerUpdatedDocs s c)),
      customers := s.customers.map (fun cu =>
        if cu.id = c then
          { cu with currentBalance := customerFinal 0 (customerOrdered s c),
                    lastActivity := lastDate none ((customerOrdered s c).map (fun t => t.date)) }
        else cu) } := by
  by_cases hc : s.customers.any (fun cu => cu.id == c) = true
  · rw [recalcCustomer_ok c s hc] at h
    exact ⟨hc, (congrArg Prod.snd h).symm⟩
  · rw [recalcCustomer_err c s hc] at h
    simp at h

theorem recalcCustomer_customer_fields (c : String) (s s' : Store)
    (h : recalculateCustomerBalance c s = (Except.ok (), s')) :
    ∀ cu ∈ s'.customers, cu.id = c →
      cu.currentBalance = customerFinal 0 (customerOrdered s c) ∧
      cu.lastActivity = lastDate none ((customerOrdered s c).map (fun t => t.date)) := by
  obtain ⟨-, hs'⟩ := recalcCustomer_ok_elim c s s' h
  subst hs'
  intro cu hcu hid
  simp only [List.mem_map] at hcu
  obtain ⟨x, hx, hxcu⟩ := hcu
  by_cases hxc : x.id = c
  · rw [if_pos hxc] at hxcu
    rw [← hxcu]
    exact ⟨rfl, rfl⟩
  · rw [if_neg hxc] at hxcu
    exact absurd (hxcu ▸ hid) hxc

theorem snapshot_id_nodup (s : Store) (c : String)
    (hnd : (s.transactions.map (fun t => t.id)).Nodup) :
    ((customerSnapshot s c).map (fun t => t.id)).Nodup :=
  ((List.filter_sublist s.transactions).map (fun t => t.id)).nodup hnd

theorem ordered_id_nodup (s : Store) (c : String)
    (hnd : (s.transactions.map (fun t => t.id)).Nodup) :
    ((customerOrdered s c).map (fun t => t.id)).Nodup :=
  (((sortByKey_perm txnDateKey (customerSnapshot s c)).map (fun t => t.id)).nodup_iff).2
    (snapshot_id_nodup s c hnd)

/-- C1: for the ledger of one customer, the balance recalculator sorts the
transactions ascending by date, folds left from running total 0 adding the
amount for CREDIT and subtracting it for PAYMENT, writes each post-fold
total as that transaction balanceAfter, and stores the final total as the
customer currentBalance; hence after recalculation the stored balance is
the signed sum of all the customer transactions (sum of CREDIT amounts
minus sum of PAYMENT amounts) and each balanceAfter is the prefix sum up to
that transaction in date order. -/
theorem c1_balance_recalculator (s : Store) (c : String) (s' : Store)
    (hnd : (s.transactions.map (fun t => t.id)).Nodup)
    (hrun : recalculateCustomerBalance c s = (Except.ok (), s')) :
    (customerOrdered s c).Perm (customerSnapshot s c) ∧
    (customerOrdered s c).Pairwise (fun a b => txnDateKey a ≤ txnDateKey b) ∧
    (∀ cu ∈ s'.customers, cu.id = c →
      cu.currentBalance =
        (((customerSnapshot s c).filter
            (fun t => normalizeTransactionType t.type == "CREDIT")).map
          (fun t => t.amount)).sum -
        (((customerSnapshot s c).filter
            (fun t => normalizeTransactionType t.type == "PAYMENT")).map
          (fun t => t.amount)).sum) ∧
    (∀ t' ∈ s'.transactions, t'.customerId = c →
      t'.balanceAfter = prefixUpTo (customerOrdered s c) t'.id) := by
  refine ⟨sortByKey_perm txnDateKey _, sortByKey_pairwise txnDateKey _, ?_, ?_⟩
  · intro cu hcu hid
    have hfields := recalcCustomer_customer_fields c s s' hrun cu hcu hid
    rw [hfields.1, customerFinal_eq_sum]
    have hperm : ((customerOrdered s c).map customerDelta).sum
        = ((customerSnapshot s c).map customerDelta).sum :=
      ((sortByKey_perm txnDateKey (customerSnapshot s c)).map customerDelta).sum_eq
    rw [hperm, customerDelta_split]
    ring
  · intro t' ht' hcid
    obtain ⟨-, hs'⟩ := recalcCustomer_ok_elim c s s' hrun
    subst hs'
    simp only [List.mem_map] at ht'
    obtain ⟨t, ht, hteq⟩ := ht'
    unfold recalcUpdate at hteq
    cases hfind : (customerUpdatedDocs s c).find? (fun u => u.id == t.id) with
    | none =>
        rw [hfind, Option.getD_none] at hteq
        subst hteq
        have hmem : t ∈ customerSnapshot s c :=
          List.mem_filter.2 ⟨ht, by simp [hcid]⟩
        have hmem' : t ∈ customerOrdered s c :=
          (sortByKey_perm txnDateKey (customerSnapshot s c)).mem_iff.2 hmem
        have hidmem : t.id ∈ (customerUpdatedDocs s c).map (fun u => u.id) := by
          rw [customerUpdatedDocs, applyCustomerEntries_map_id]
          exact List.mem_map_of_mem (fun u => u.id) hmem'
        obtain ⟨u, hu, huid⟩ := List.mem_map.1 hidmem
        have := List.find?_eq_none.1 hfind u hu
        simp [huid] at this
    | some u =>
        rw [hfind, Option.getD_some] at hteq
        subst hteq
        have hu : u ∈ customerUpdatedDocs s c := List.mem_of_find?_eq_some hfind
        have := applyCustomerEntries_balance 0 (customerOrdered s c)
          (ordered_id_nodup s c hnd) u hu
        rw [this]
        ring

/-- Witness for C1: the recalculation of the demo store satisfies every
conjunct of the theorem at a concrete input. -/
theorem c1_balance_recalculator_witness :
    (demoStore.transactions.map (fun t => t.id)).Nodup ∧
    ((customerOrdered demoStore "c1").Perm (customerSnapshot demoStore "c1") ∧
    (customerOrdered demoStore "c1").Pairwise (fun a b => txnDateKey a ≤ txnDateKey b) ∧
    (∀ cu ∈ (recalculateCustomerBalance "c1" demoStore).2.customers, cu.id = "c1" →
      cu.currentBalance =
        (((customerSnapshot demoStore "c1").filter
            (fun t => normalizeTransactionType t.type == "CREDIT")).map
          (fun t => t.amount)).sum -
        (((customerSnapshot demoStore "c1").filter
            (fun t => normalizeTransactionType t.type == "PAYMENT")).map
          (fun t => t.amount)).sum) ∧
    (∀ t' ∈ (recalculateCustomerBalance "c1" demoStore).2.transactions, t'.customerId = "c1" →
      t'.balanceAfter = prefixUpTo (customerOrdered demoStore "c1") t'.id)) :=
  ⟨by decide,
    c1_balance_recalculator demoStore "c1" (recalculateCustomerBalance "c1" demoStore).2
      (by decide) (by decide)⟩

/-! Lemmas about the party fold, mirroring the customer ones. -/

theorem applyPartyEntries_map_id (due : Int) (l : List PartyTxnDoc) :
    (applyPartyEntries due l).map (fun m => m.id) = l.map (fun m => m.id) := by
  induction l generalizing due with
  | nil => rfl
  | cons m ms ih => simp [applyPartyEntries, ih]

theorem applyPartyEntries_map_date (due : Int) (l : List PartyTxnDoc) :
    (applyPartyEntries due l).map (fun m => m.date) = l.map (fun m => m.date) := by
  induction l generalizing due with
  | nil => rfl
  | cons m ms ih => simp [applyPartyEntries, ih]

theorem partyDelta_apply (due : Int) (m : PartyTxnDoc) :
    partyDelta { m with dueAfter := due } = partyDelta m := by
  unfold partyDelta
  rfl

theorem applyPartyEntries_map_delta (due : Int) (l : List PartyTxnDoc) :
    (applyPartyEntries due l).map partyDelta = l.map partyDelta := by
  induction l generalizing due with
  | nil => rfl
  | cons m ms ih => simp [applyPartyEntries, ih, partyDelta_apply]

theorem applyPartyEntries_mem (due : Int) (l : List PartyTxnDoc) (u : PartyTxnDoc)
    (hu : u ∈ applyPartyEntries due l) :
    ∃ m ∈ l, ∃ b : Int, u = { m with dueAfter := b } := by
  induction l generalizing due with
  | nil => simp [applyPartyEntries] at hu
  | cons m ms ih =>
      simp only [applyPartyEntries, List.mem_cons] at hu
      rcases hu with rfl | hu
      · exact ⟨m, List.mem_cons_self m ms, due + partyDelta m, rfl⟩
      · obtain ⟨m', hm', b, hb⟩ := ih _ hu
        exact ⟨m', List.mem_cons_of_mem m hm', b, hb⟩

theorem partyFinal_eq_sum (due : Int) (l : List PartyTxnDoc) :
    partyFinal due l = due + (l.map partyDelta).sum := by
  induction l generalizing due with
  | nil => simp [partyFinal]
  | cons m ms ih =>
      show partyFinal (due + partyDelta m) ms = _
      rw [ih]
      simp only [List.map_cons, List.sum_cons]
      ring

theorem partyDelta_split (l : List PartyTxnDoc) :
    (l.map partyDelta).sum =
      ((l.filter (fun m => m.type == "PURCHASE")).map (fun m => m.amount)).sum -
        ((l.filter (fun m => !(m.type == "PURCHASE"))).map (fun m => m.amount)).sum := by
  induction l with
  | nil => simp
  | cons m ms ih =>
      by_cases hp : m.type = "PURCHASE"
      · have hdelta : partyDelta m = m.amount := by simp [partyDelta, hp]
        simp only [List.map_cons, List.sum_cons, List.filter_cons]
        rw [if_pos (by simp [hp]), if_neg (by simp [hp])]
        simp only [List.map_cons, List.sum_cons, hdelta, ih]
        ring
      · have hdelta : partyDelta m = -m.amount := by simp [partyDelta, hp]
        simp only [List.map_cons, List.sum_cons, List.filter_cons]
        rw [if_neg (by simp [hp]), if_pos (by simp [hp])]
        simp only [List.map_cons, List.sum_cons, hdelta, ih]
        ring

theorem applyPartyEntries_due (due : Int) (l : List PartyTxnDoc)
    (hnd : (l.map (fun m => m.id)).Nodup) (u : PartyTxnDoc)
    (hu : u ∈ applyPartyEntries due l) :
    u.dueAfter = due + partyPrefixUpTo l u.id := by
  induction l generalizing due with
  | nil => simp [applyPartyEntries] at hu
  | cons m ms ih =>
      rw [List.map_cons] at hnd
      have hnotmem := (List.nodup_cons.1 hnd).1
      have hnd' := (List.nodup_cons.1 hnd).2
      simp only [applyPartyEntries, List.mem_cons] at hu
      rcases hu with rfl | hu
      · simp [partyPrefixUpTo]
      · have hid : u.id ∈ ms.map (fun m => m.id) := by
          have := applyPartyEntries_map_id (due + partyDelta m) ms
          rw [← this]
          exact List.mem_map_of_mem (fun m => m.id) hu
        have hne : ¬ m.id = u.id := fun hcontra => hnotmem (hcontra ▸ hid)
        rw [ih _ hnd' hu]
        simp only [partyPrefixUpTo]
        rw [if_neg hne]
        ring

/-! Characterization of the party recalculation. -/

theorem recalcParty_ok (p : String) (s : Store)
    (hp : s.parties.any (fun pa => pa.id == p) = true) :
    recalculatePartyDue p s =
      (Except.ok (),
        { s with
          partyTransactions := s.partyTransactions.map (recalcPartyUpdate (partyUpdatedDocs s p)),
          parties := s.parties.map (fun pa =>
            if pa.id = p then
              { pa with currentDue := partyFinal 0 (partyOrdered s p),
                        lastActivity := lastDate none ((partyOrdered s p).map (fun m => m.date)) }
            else pa) }) := by
  unfold recalculatePartyDue
  rw [if_pos hp]

theorem recalcParty_err (p : String) (s : Store)
    (hp : ¬ s.parties.any (fun pa => pa.id == p) = true) :
    recalculatePartyDue p s =
      (Except.error (AppError.storeFailure "No document to update"), s) := by
  unfold recalculatePartyDue
  rw [if_neg hp]

theorem recalcParty_ok_elim (p : String) (s s' : Store)
    (h : recalculatePartyDue p s = (Except.ok (), s')) :
    s.parties.any (fun pa => pa.id == p) = true ∧
    s' = { s with
      partyTransactions := s.partyTransactions.map (recalcPartyUpdate (partyUpdatedDocs s p)),
      parties := s.parties.map (fun pa =>
        if pa.id = p then
          { pa with currentDue := partyFinal 0 (partyOrdered s p),
                    lastActivity := lastDate none ((partyOrdered s p).map (fun m => m.date)) }
        else pa) } := by
  by_cases hp : s.parties.any (fun pa => pa.id == p) = true
  · rw [recalcParty_ok p s hp] at h
    exact ⟨hp, (congrArg Prod.snd h).symm⟩
  · rw [recalcParty_err p s hp] at h
    simp at h

theorem recalcParty_party_fields (p : String) (s s' : Store)
    (h : recalculatePartyDue p s = (Except.ok (), s')) :
    ∀ pa ∈ s'.parties, pa.id = p →
      pa.currentDue = partyFinal 0 (partyOrdered s p) ∧
      pa.lastActivity = lastDate none ((partyOrdered s p).map (fun m => m.date)) := by
  obtain ⟨-, hs'⟩ := recalcParty_ok_elim p s s' h
  subst hs'
  intro pa hpa hid
  simp only [List.mem_map] at hpa
  obtain ⟨x, hx, hxpa⟩ := hpa
  by_cases hxp : x.id = p
  · rw [if_pos hxp] at hxpa
    rw [← hxpa]
    exact ⟨rfl, rfl⟩
  · rw [if_neg hxp] at hxpa
    exact absurd (hxpa ▸ hid) hxp

theorem partySnapshot_id_nodup (s : Store) (p : String)
    (hnd : (s.partyTransactions.map (fun m => m.id)).Nodup) :
    ((partySnapshot s p).map (fun m => m.id)).Nodup :=
  ((List.filter_sublist s.partyTransactions).map (fun m => m.id)).nodup hnd

theorem partyOrdered_id_nodup (s : Store) (p : String)
    (hnd : (s.partyTransactions.map (fun m => m.id)).Nodup) :
    ((partyOrdered s p).map (fun m => m.id)).Nodup :=
  (((sortByKey_perm partyTxnDateKey (partySnapshot s p)).map (fun m => m.id)).nodup_iff).2
    (partySnapshot_id_nodup s p hnd)

/-- C5: the due recalculator folds the party ledger adding the amount only
for PURCHASE entries and subtracting it for every other type (PAYMENT,
DISCOUNT, CUSTOMER_DIRECT); after recalculation the stored currentDue
equals the sum of PURCHASE amounts minus the sum of all other amounts, and
each dueAfter is the corresponding prefix sum in date order. -/
theorem c5_due_recalculator (s : Store) (p : String) (s' : Store)
    (hnd : (s.partyTransactions.map (fun m => m.id)).Nodup)
    (hrun : recalculatePartyDue p s = (Except.ok (), s')) :
    (∀ m : PartyTxnDoc, (m.type = "PURCHASE" → partyDelta m = m.amount) ∧
      (m.type ≠ "PURCHASE" → partyDelta m = -m.amount)) ∧
    (∀ pa ∈ s'.parties, pa.id = p →
      pa.currentDue =
        (((partySnapshot s p).filter (fun m => m.type == "PURCHASE")).map
          (fun m => m.amount)).sum -
        (((partySnapshot s p).filter (fun m => !(m.type == "PURCHASE"))).map
          (fun m => m.amount)).sum) ∧
    (∀ m' ∈ s'.partyTransactions, m'.partyId = p →
      m'.dueAfter = partyPrefixUpTo (partyOrdered s p) m'.id) := by
  refine ⟨?_, ?_, ?_⟩
  · intro m
    constructor
    · intro hp
      simp [partyDelta, hp]
    · intro hp
      simp [partyDelta, hp]
  · intro pa hpa hid
    have hfields := recalcParty_party_fields p s s' hrun pa hpa hid
    rw [hfields.1, partyFinal_eq_sum]
    have hperm : ((partyOrdered s p).map partyDelta).sum
        = ((partySnapshot s p).map partyDelta).sum :=
      ((sortByKey_perm partyTxnDateKey (partySnapshot s p)).map partyDelta).sum_eq
    rw [hperm, partyDelta_split]
    ring
  · intro m' hm' hpid
    obtain ⟨-, hs'⟩ := recalcParty_ok_elim p s s' hrun
    subst hs'
    simp only [List.mem_map] at hm'
    obtain ⟨m, hm, hmeq⟩ := hm'
    unfold recalcPartyUpdate at hmeq
    cases hfind : (partyUpdatedDocs s p).find? (fun u => u.id == m.id) with
    | none =>
        rw [hfind, Option.getD_none] at hmeq
        subst hmeq
        have hmem : m ∈ partySnapshot s p :=
          List.mem_filter.2 ⟨hm, by simp [hpid]⟩
        have hmem' : m ∈ partyOrdered s p :=
          (sortByKey_perm partyTxnDateKey (partySnapshot s p)).mem_iff.2 hmem
        have hidmem : m.id ∈ (partyUpdatedDocs s p).map (fun u => u.id) := by
          rw [partyUpdatedDocs, applyPartyEntries_map_id]
          exact List.mem_map_of_mem (fun u => u.id) hmem'
        obtain ⟨u, hu, huid⟩ := List.mem_map.1 hidmem
        have := List.find?_eq_none.1 hfind u hu
        simp [huid] at this
    | some u =>
        rw [hfind, Option.getD_some] at hmeq
        subst hmeq
        have hu : u ∈ partyUpdatedDocs s p := List.mem_of_find?_eq_some hfind
        have := applyPartyEntries_due 0 (partyOrdered s p)
          (partyOrdered_id_nodup s p hnd) u hu
        rw [this]
        ring

/-- Witness for C5 at the demo store: party p1 holds a PURCHASE of 400 and
a DISCOUNT of 40, so the recalculated due is 360. -/
theorem c5_due_recalculator_witness :
    (demoStore.partyTransactions.map (fun m => m.id)).Nodup ∧
    ((∀ m : PartyTxnDoc, (m.type = "PURCHASE" → partyDelta m = m.amount) ∧
      (m.type ≠ "PURCHASE" → partyDelta m = -m.amount)) ∧
    (∀ pa ∈ (recalculatePartyDue "p1" demoStore).2.parties, pa.id = "p1" →
      pa.currentDue =
        (((partySnapshot demoStore "p1").filter (fun m => m.type == "PURCHASE")).map
          (fun m => m.amount)).sum -
        (((partySnapshot demoStore "p1").filter (fun m => !(m.type == "PURCHASE"))).map
          (fun m => m.amount)).sum) ∧
    (∀ m' ∈ (recalculatePartyDue "p1" demoStore).2.partyTransactions, m'.partyId = "p1" →
      m'.dueAfter = partyPrefixUpTo (partyOrdered demoStore "p1") m'.id)) :=
  ⟨by decide,
    c5_due_recalculator demoStore "p1" (recalculatePartyDue "p1" demoStore).2
      (by decide) (by decide)⟩

/-! Lemmas about lastActivity tracking. -/

theorem getLast?_cons_or (x : α) (l : List α) :
    (x :: l).getLast? = l.getLast?.or (some x) := by
  cases l with
  | nil => rfl
  | cons z zs =>
      rw [List.getLast?_cons_cons]
      cases h : (z :: zs).getLast? with
      | none =>
          exfalso
          have : z :: zs ≠ [] := by simp
          rcases List.getLast?_eq_getLast (z :: zs) this with h'
          rw [h'] at h
          simp at h
      | some y => rfl

theorem lastDate_eq_getLast (la : Option Int) (ds : List (Option Int)) :
    lastDate la ds = (ds.filterMap id).getLast?.or la := by
  induction ds generalizing la with
  | nil => simp [lastDate, List.filterMap_nil, Option.or]
  | cons d ds ih =>
      cases d with
      | none =>
          show lastDate la ds = _
          rw [ih]
          rfl
      | some x =>
          show lastDate (some x) ds = _
          rw [ih]
          have hfm : (some x :: ds).filterMap (id : Option Int → Option Int)
              = x :: ds.filterMap id := by
            simp [List.filterMap_cons]
          rw [hfm, getLast?_cons_or]
          cases h : (ds.filterMap id).getLast? with
          | none => rfl
          | some y => rfl

theorem getLast?_max (l : List Int) (hl : l.Pairwise (fun a b => a ≤ b))
    (hne : l ≠ []) : ∃ y, l.getLast? = some y ∧ ∀ x ∈ l, x ≤ y := by
  induction l with
  | nil => exact absurd rfl hne
  | cons a as ih =>
      rcases List.pairwise_cons.1 hl with ⟨ha, htail⟩
      cases as with
      | nil =>
          refine ⟨a, rfl, ?_⟩
          intro x hx
          simp only [List.mem_singleton] at hx
          simp [hx]
      | cons b bs =>
          obtain ⟨y, hy, hall⟩ := ih htail (by simp)
          rw [List.getLast?_cons_cons]
          refine ⟨y, hy, ?_⟩
          intro x hx
          rcases List.mem_cons.1 hx with rfl | hx'
          · exact le_trans (ha b (List.mem_cons_self b bs)) (hall b (List.mem_cons_self b bs))
          · exact hall x hx'

/-- C6: the recalculator stores as lastActivity the date of the
chronologically last transaction (the last present date in date order, a
maximum of all present dates); an empty transaction set leaves the total 0
and lastActivity unset; a transaction without a date is excluded from
lastActivity but still folded into the total, and its sort key is 0. -/
theorem c6_last_activity (s : Store) (c : String) (s' : Store)
    (hrun : recalculateCustomerBalance c s = (Except.ok (), s')) :
    (customerSnapshot s c = [] →
      ∀ cu ∈ s'.customers, cu.id = c →
        cu.currentBalance = 0 ∧ cu.lastActivity = none) ∧
    (∀ cu ∈ s'.customers, cu.id = c →
      cu.lastActivity = ((customerOrdered s c).filterMap (fun t => t.date)).getLast?) ∧
    (∀ cu ∈ s'.customers, cu.id = c →
      ∀ t ∈ customerSnapshot s c, ∀ x : Int, t.date = some x →
        ∃ y, cu.lastActivity = some y ∧ x ≤ y) ∧
    (∀ cu ∈ s'.customers, cu.id = c →
      cu.currentBalance = ((customerSnapshot s c).map customerDelta).sum) ∧
    (∀ t : TxnDoc, t.date = none → txnDateKey t = 0) := by
  have hfields := recalcCustomer_customer_fields c s s' hrun
  have hlast : ∀ cu ∈ s'.customers, cu.id = c →
      cu.lastActivity = ((customerOrdered s c).filterMap (fun t => t.date)).getLast? := by
    intro cu hcu hid
    rw [(hfields cu hcu hid).2, lastDate_eq_getLast, List.filterMap_map]
    simp only [Function.comp_def, id_eq]
    cases ((customerOrdered s c).filterMap (fun t => t.date)).getLast? with
    | none => rfl
    | some y => rfl
  refine ⟨?_, hlast, ?_, ?_, ?_⟩
  · intro hempty cu hcu hid
    have h1 := (hfields cu hcu hid).1
    have h2 := (hfields cu hcu hid).2
    rw [customerOrdered, hempty] at h1 h2
    exact ⟨by simpa [sortByKey, customerFinal] using h1,
      by simpa [sortByKey, lastDate] using h2⟩
  · intro cu hcu hid t ht x hx
    rw [hlast cu hcu hid]
    have hmem' : t ∈ customerOrdered s c :=
      (sortByKey_perm txnDateKey (customerSnapshot s c)).mem_iff.2 ht
    have hxmem : x ∈ (customerOrdered s c).filterMap (fun t => t.date) :=
      List.mem_filterMap.2 ⟨t, hmem', hx ▸ rfl⟩
    have hpw : ((customerOrdered s c).filterMap (fun t => t.date)).Pairwise
        (fun a b => a ≤ b) := by
      rw [List.pairwise_filterMap]
      apply (sortByKey_pairwise txnDateKey (customerSnapshot s c)).imp
      intro a b hab u hu v hv
      simp only [Option.mem_def] at hu hv
      have hka : txnDateKey a = u := by simp [txnDateKey, hu]
      have hkb : txnDateKey b = v := by simp [txnDateKey, hv]
      rw [← hka, ← hkb]
      exact hab
    obtain ⟨y, hy, hall⟩ := getLast?_max _ hpw (List.ne_nil_of_mem hxmem)
    exact ⟨y, hy, hall x hxmem⟩
  · intro cu hcu hid
    rw [(hfields cu hcu hid).1, customerFinal_eq_sum]
    have hperm : ((customerOrdered s c).map customerDelta).sum
        = ((customerSnapshot s c).map customerDelta).sum :=
      ((sortByKey_perm txnDateKey (customerSnapshot s c)).map customerDelta).sum_eq
    rw [hperm]
    ring
  · intro t hnone
    simp [txnDateKey, hnone]

/-- Witness for C6: on a ledger with a dateless CREDIT and a dated PAYMENT
the recalculation folds both yet tracks only the present date. -/
theorem c6_last_activity_witness :
    (recalculateCustomerBalance "c1" demoStoreNoDate =
      (Except.ok (), (recalculateCustomerBalance "c1" demoStoreNoDate).2)) ∧
    ((customerSnapshot demoStoreNoDate "c1" = [] →
      ∀ cu ∈ (recalculateCustomerBalance "c1" demoStoreNoDate).2.customers, cu.id = "c1" →
        cu.currentBalance = 0 ∧ cu.lastActivity = none) ∧
    (∀ cu ∈ (recalculateCustomerBalance "c1" demoStoreNoDate).2.customers, cu.id = "c1" →
      cu.lastActivity =
        ((customerOrdered demoStoreNoDate "c1").filterMap (fun t => t.date)).getLast?) ∧
    (∀ cu ∈ (recalculateCustomerBalance "c1" demoStoreNoDate).2.customers, cu.id = "c1" →
      ∀ t ∈ customerSnapshot demoStoreNoDate "c1", ∀ x : Int, t.date = some x →
        ∃ y, cu.lastActivity = some y ∧ x ≤ y) ∧
    (∀ cu ∈ (recalculateCustomerBalance "c1" demoStoreNoDate).2.customers, cu.id = "c1" →
      cu.currentBalance = ((customerSnapshot demoStoreNoDate "c1").map customerDelta).sum) ∧
    (∀ t : TxnDoc, t.date = none → txnDateKey t = 0)) :=
  ⟨by decide,
    c6_last_activity demoStoreNoDate "c1"
      (recalculateCustomerBalance "c1" demoStoreNoDate).2 (by decide)⟩

/-- C4: saveTransaction fails with a ValidationError when the customer id
is empty, when the amount is not strictly positive, or when a PAYMENT in
PARTY_DIRECT mode names no party (after trimming); it fails with NotFound
when editing an id that is not stored; in every such failure it returns
before any write, leaving the store unchanged. -/
theorem c4_save_transaction_errors (input : SaveTransactionInput) (freshId : String)
    (s : Store) :
    (input.customerId = "" →
      saveTransaction input freshId s =
        (Except.error (AppError.validationError "Customer is required."), s)) ∧
    (input.customerId ≠ "" → input.amount ≤ 0 →
      saveTransaction input freshId s =
        (Except.error (AppError.validationError "Amount should be greater than zero."), s)) ∧
    (input.customerId ≠ "" → 0 < input.amount →
      input.type = TransactionType.PAYMENT →
      normalizePaymentMode ((input.paymentMode.map PaymentMode.str).getD "CASH") = "PARTY_DIRECT" →
      trimString (input.partyId.getD "") = "" →
      saveTransaction input freshId s =
        (Except.error (AppError.validationError "Select party for direct payment mode."), s)) ∧
    (∀ tid : String, input.customerId ≠ "" → 0 < input.amount →
      ¬(input.type = TransactionType.PAYMENT ∧
        normalizePaymentMode ((input.paymentMode.map PaymentMode.str).getD "CASH") = "PARTY_DIRECT" ∧
        trimString (input.partyId.getD "") = "") →
      input.id = some tid →
      (∀ t ∈ s.transactions, t.id ≠ tid) →
      saveTransaction input freshId s =
        (Except.error (AppError.notFound "Transaction not found."), s)) := by
  refine ⟨?_, ?_, ?_, ?_⟩
  · intro h
    unfold saveTransaction
    rw [if_pos h]
  · intro h1 h2
    unfold saveTransaction
    rw [if_neg h1, if_pos h2]
  · intro h1 h2 h3 h4 h5
    unfold saveTransaction
    rw [if_neg h1, if_neg (not_le.2 h2)]
    rw [if_pos ⟨h3, h4, by rw [if_pos h4]; exact h5⟩]
  · intro tid h1 h2 h3 hid hmem
    have hfind : s.transactions.find? (fun t => t.id == tid) = none :=
      List.find?_eq_none.2 (fun t ht => by simp [hmem t ht])
    have hcond : ¬(input.type = TransactionType.PAYMENT ∧
        normalizePaymentMode ((input.paymentMode.map PaymentMode.str).getD "CASH") = "PARTY_DIRECT" ∧
        (if normalizePaymentMode ((input.paymentMode.map PaymentMode.str).getD "CASH") = "PARTY_DIRECT"
         then trimString (input.partyId.getD "") else "") = "") := by
      intro ⟨ha, hb, hc⟩
      rw [if_pos hb] at hc
      exact h3 ⟨ha, hb, hc⟩
    unfold saveTransaction
    rw [if_neg h1, if_neg (not_le.2 h2), if_neg hcond]
    unfold saveTransactionWrite
    rw [hid]
    simp only [hfind]

/-- Witness for C4: each failure mode evaluated at a concrete input on the
demo store. -/
theorem c4_save_transaction_errors_witness :
    (saveTransaction ⟨none, "", TransactionType.CREDIT, 5, none, 1, none, none⟩ "f" demoStore =
      (Except.error (AppError.validationError "Customer is required."), demoStore)) ∧
    (saveTransaction ⟨none, "c1", TransactionType.CREDIT, 0, none, 1, none, none⟩ "f" demoStore =
      (Except.error (AppError.validationError "Amount should be greater than zero."), demoStore)) ∧
    (saveTransaction ⟨none, "c1", TransactionType.PAYMENT, 5, none, 1,
        some PaymentMode.PARTY_DIRECT, some "  "⟩ "f" demoStore =
      (Except.error (AppError.validationError "Select party for direct payment mode."), demoStore)) ∧
    (saveTransaction ⟨some "zz", "c1", TransactionType.CREDIT, 5, none, 1, none, none⟩ "f" demoStore =
      (Except.error (AppError.notFound "Transaction not found."), demoStore)) :=
  ⟨(c4_save_transaction_errors ⟨none, "", TransactionType.CREDIT, 5, none, 1, none, none⟩
      "f" demoStore).1 (by decide),
   (c4_save_transaction_errors ⟨none, "c1", TransactionType.CREDIT, 0, none, 1, none, none⟩
      "f" demoStore).2.1 (by decide) (by decide),
   (c4_save_transaction_errors ⟨none, "c1", TransactionType.PAYMENT, 5, none, 1,
      some PaymentMode.PARTY_DIRECT, some "  "⟩ "f" demoStore).2.2.1
      (by decide) (by decide) (by decide) (by decide) (by decide),
   (c4_save_transaction_errors ⟨some "zz", "c1", TransactionType.CREDIT, 5, none, 1, none, none⟩
      "f" demoStore).2.2.2 "zz" (by decide) (by decide) (by decide) (by decide) (by decide)⟩

/-- C10: deleting a transaction id with no stored record is a silent no-op
for both ledgers: the call returns without an error and the store is
unchanged. -/
theorem c10_delete_missing_noop (s : Store) (tid pid : String) :
    ((∀ t ∈ s.transactions, t.id ≠ tid) →
      deleteTransaction tid s = (Except.ok (), s)) ∧
    ((∀ m ∈ s.partyTransactions, m.id ≠ pid) →
      deletePartyTransaction pid s = (Except.ok (), s)) := by
  constructor
  · intro h
    have hf : s.transactions.find? (fun t => t.id == tid) = none :=
      List.find?_eq_none.2 (fun t ht => by simp [h t ht])
    unfold deleteTransaction
    rw [hf]
  · intro h
    have hf : s.partyTransactions.find? (fun m => m.id == pid) = none :=
      List.find?_eq_none.2 (fun m hm => by simp [h m hm])
    unfold deletePartyTransaction
    rw [hf]

/-- Witness for C10: ids absent from the demo store delete as no-ops. -/
theorem c10_delete_missing_noop_witness :
    deleteTransaction "zz" demoStore = (Except.ok (), demoStore) ∧
    deletePartyTransaction "zz" demoStore = (Except.ok (), demoStore) :=
  ⟨(c10_delete_missing_noop demoStore "zz" "zz").1 (by decide),
   (c10_delete_missing_noop demoStore "zz" "zz").2 (by decide)⟩

/-- C8: deleteParty removes, in one batch, the party document and every
party transaction of that party whose type is not CUSTOMER_DIRECT; the
CUSTOMER_DIRECT entries of that party survive, no other ledger entry is
removed, and the customer collections (including every originating
customer payment) are untouched. -/
theorem c8_delete_party (pid : String) (s : Store) :
    deleteParty pid s =
      (Except.ok (),
        { s with
          partyTransactions := s.partyTransactions.filter (fun m =>
            !(m.partyId == pid && !(m.type == "CUSTOMER_DIRECT"))),
          parties := s.parties.filter (fun p => !(p.id == pid)) }) ∧
    (∀ m ∈ s.partyTransactions, m.partyId = pid → m.type = "CUSTOMER_DIRECT" →
      m ∈ (deleteParty pid s).2.partyTransactions) ∧
    (∀ m ∈ s.partyTransactions, m.partyId ≠ pid →
      m ∈ (deleteParty pid s).2.partyTransactions) ∧
    (∀ m ∈ (deleteParty pid s).2.partyTransactions,
      ¬(m.partyId = pid ∧ m.type ≠ "CUSTOMER_DIRECT")) ∧
    (∀ pa ∈ (deleteParty pid s).2.parties, pa.id ≠ pid) ∧
    (deleteParty pid s).2.transactions = s.transactions ∧
    (deleteParty pid s).2.customers = s.customers := by
  refine ⟨rfl, ?_, ?_, ?_, ?_, rfl, rfl⟩
  · intro m hm hpid hty
    apply List.mem_filter.2
    exact ⟨hm, by simp [hty]⟩
  · intro m hm hpid
    apply List.mem_filter.2
    exact ⟨hm, by simp [hpid]⟩
  · intro m hm
    have := (List.mem_filter.1 hm).2
    intro ⟨h1, h2⟩
    simp [h1, h2] at this
  · intro pa hpa
    have := (List.mem_filter.1 hpa).2
    intro hcontra
    simp [hcontra] at this

/-- C9: deleteCustomer removes only the customer document and the ledger
transactions of that customer; the party collections are untouched, so
CUSTOMER_DIRECT mirror entries created by the customer survive as orphans,
no party due is recalculated, and every party ledger total is unchanged. -/
theorem c9_delete_customer (cid : String) (s : Store) :
    deleteCustomer cid s =
      (Except.ok (),
        { s with
          transactions := s.transactions.filter (fun t => !(t.customerId == cid)),
          customers := s.customers.filter (fun c => !(c.id == cid)) }) ∧
    (deleteCustomer cid s).2.partyTransactions = s.partyTransactions ∧
    (deleteCustomer cid s).2.parties = s.parties ∧
    (∀ c' ∈ (deleteCustomer cid s).2.customers, c'.id ≠ cid) ∧
    (∀ t ∈ (deleteCustomer cid s).2.transactions, t.customerId ≠ cid) ∧
    (∀ t ∈ s.transactions, t.customerId ≠ cid →
      t ∈ (deleteCustomer cid s).2.transactions) ∧
    (∀ p : String, partyLedgerTotal (deleteCustomer cid s).2.partyTransactions p =
      partyLedgerTotal s.partyTransactions p) := by
  refine ⟨rfl, rfl, rfl, ?_, ?_, ?_, fun p => rfl⟩
  · intro c' hc'
    have := (List.mem_filter.1 hc').2
    intro hcontra
    simp [hcontra] at this
  · intro t ht
    have := (List.mem_filter.1 ht).2
    intro hcontra
    simp [hcontra] at this
  · intro t ht hne
    apply List.mem_filter.2
    exact ⟨ht, by simp [hne]⟩

/-- Counterexample for C3: editing a stored CUSTOMER_DIRECT party
transaction through savePartyTransaction does not fail with an
InvalidOperation error; the call succeeds and overwrites the entry. -/
theorem c3_counterexample :
    (savePartyTransaction ⟨some "t1", "p1", PartyInputType.PURCHASE, 5, none, 2⟩
        "f" demoStoreC3).1 = Except.ok "t1" ∧
    (savePartyTransaction ⟨some "t1", "p1", PartyInputType.PURCHASE, 5, none, 2⟩
        "f" demoStoreC3).2 ≠ demoStoreC3 ∧
    (∀ m ∈ (savePartyTransaction ⟨some "t1", "p1", PartyInputType.PURCHASE, 5, none, 2⟩
        "f" demoStoreC3).2.partyTransactions, m.id = "t1" → m.type = "PURCHASE") := by
  decide

/-- C3 as amended: only the delete path guards CUSTOMER_DIRECT entries:
deletePartyTransaction on a stored CUSTOMER_DIRECT entry fails with the
InvalidOperation error and mutates nothing, while savePartyTransaction
never raises an InvalidOperation error and, subject only to its own
validation, overwrites such an entry. -/
theorem c3_customer_direct_guard :
    (∀ (s : Store) (tid : String) (m : PartyTxnDoc),
      s.partyTransactions.find? (fun x => x.id == tid) = some m →
      m.type = "CUSTOMER_DIRECT" →
      deletePartyTransaction tid s =
        (Except.error (AppError.invalidOperation
          "Direct customer payment entries are managed from customer transactions."), s)) ∧
    (∀ (input : SavePartyTransactionInput) (freshId : String) (s : Store) (msg : String),
      (savePartyTransaction input freshId s).1 ≠
        Except.error (AppError.invalidOperation msg)) := by
  constructor
  · intro s tid m hfind hty
    unfold deletePartyTransaction
    rw [hfind]
    simp [hty]
  · intro input freshId s msg
    have hrp : ∀ (p : String) (s1 : Store),
        (recalculatePartyDue p s1).1 = Except.ok () ∨
        (recalculatePartyDue p s1).1 =
          Except.error (AppError.storeFailure "No document to update") := by
      intro p s1
      by_cases hp : s1.parties.any (fun pa => pa.id == p) = true
      · rw [recalcParty_ok p s1 hp]
        exact Or.inl rfl
      · rw [recalcParty_err p s1 hp]
        exact Or.inr rfl
    unfold savePartyTransaction
    by_cases h1 : input.partyId = ""
    · rw [if_pos h1]
      simp
    · rw [if_neg h1]
      by_cases h2 : input.amount ≤ 0
      · rw [if_pos h2]
        simp
      · rw [if_neg h2]
        cases hid : input.id with
        | some tid =>
            cases hfind : s.partyTransactions.find? (fun m => m.id == tid) with
            | none => simp [hfind]
            | some m0 =>
                simp only [hfind]
                rcases hrp input.partyId _ with hok | herr
                · intro hcontra
                  rw [toRef] at hcontra
                  rw [hok] at hcontra
                  simp [Except.map] at hcontra
                · intro hcontra
                  rw [toRef] at hcontra
                  rw [herr] at hcontra
                  simp [Except.map] at hcontra
        | none =>
            rcases hrp input.partyId _ with hok | herr
            · intro hcontra
              rw [toRef] at hcontra
              rw [hok] at hcontra
              simp [Except.map] at hcontra
            · intro hcontra
              rw [toRef] at hcontra
              rw [herr] at hcontra
              simp [Except.map] at hcontra

/-- Witness for the amended C3 at the concrete mirror store. -/
theorem c3_customer_direct_guard_witness :
    deletePartyTransaction "t1" demoStoreC3 =
      (Except.error (AppError.invalidOperation
        "Direct customer payment entries are managed from customer transactions."),
        demoStoreC3) ∧
    (savePartyTransaction ⟨some "t1", "p1", PartyInputType.PURCHASE, 5, none, 2⟩
        "f" demoStoreC3).1 ≠
      Except.error (AppError.invalidOperation
        "Direct customer payment entries are managed from customer transactions.") :=
  ⟨c3_customer_direct_guard.1 demoStoreC3 "t1"
      ⟨"t1", "p1", "CUSTOMER_DIRECT", 300, "", some 1, -300, "c1"⟩ (by decide) (by decide),
   c3_customer_direct_guard.2 ⟨some "t1", "p1", PartyInputType.PURCHASE, 5, none, 2⟩
      "f" demoStoreC3
      "Direct customer payment entries are managed from customer transactions."⟩

/-! Stability of the recalculation updates, towards idempotence. -/

theorem recalcUpdate_idem (U : List TxnDoc) (t : TxnDoc) :
    recalcUpdate U (recalcUpdate U t) = recalcUpdate U t := by
  unfold recalcUpdate
  cases hfind : U.find? (fun u => u.id == t.id) with
  | none =>
      simp only [Option.getD_none]
      rw [hfind, Option.getD_none]
  | some u =>
      simp only [Option.getD_some]
      have hid : u.id = t.id := by simpa using List.find?_some hfind
      rw [hid, hfind, Option.getD_some]

theorem recalcPartyUpdate_idem (U : List PartyTxnDoc) (m : PartyTxnDoc) :
    recalcPartyUpdate U (recalcPartyUpdate U m) = recalcPartyUpdate U m := by
  unfold recalcPartyUpdate
  cases hfind : U.find? (fun u => u.id == m.id) with
  | none =>
      simp only [Option.getD_none]
      rw [hfind, Option.getD_none]
  | some u =>
      simp only [Option.getD_some]
      have hid : u.id = m.id := by simpa using List.find?_some hfind
      rw [hid, hfind, Option.getD_some]

theorem applyCustomerEntries_idem (bal : Int) (l : List TxnDoc) :
    applyCustomerEntries bal (applyCustomerEntries bal l) = applyCustomerEntries bal l := by
  induction l generalizing bal with
  | nil => rfl
  | cons t ts ih =>
      simp only [applyCustomerEntries, customerDelta_apply, List.cons.injEq]
      refine ⟨?_, ih (bal + customerDelta t)⟩
      simp [normalizeTransactionType_idem]

theorem applyPartyEntries_idem (due : Int) (l : List PartyTxnDoc) :
    applyPartyEntries due (applyPartyEntries due l) = applyPartyEntries due l := by
  induction l generalizing due with
  | nil => rfl
  | cons m ms ih =>
      simp only [applyPartyEntries, partyDelta_apply, List.cons.injEq]
      exact ⟨by trivial, ih (due + partyDelta m)⟩

theorem filter_map_comm (p : α → Bool) (f : α → α) (l : List α)
    (hp : ∀ a ∈ l, p (f a) = p a) : (l.map f).filter p = (l.filter p).map f := by
  induction l with
  | nil => rfl
  | cons a l ih =>
      have hpa := hp a (List.mem_cons_self a l)
      have ih' := ih (fun a ha => hp a (List.mem_cons_of_mem _ ha))
      simp only [List.map_cons, List.filter_cons, hpa]
      cases h : p a with
      | true => simp [ih']
      | false => simp [ih']

theorem insertByKey_map_mem (key : α → Int) (f : α → α) (x : α) (l : List α)
    (hfx : key (f x) = key x) (hf : ∀ a ∈ l, key (f a) = key a) :
    insertByKey key (f x) (l.map f) = (insertByKey key x l).map f := by
  induction l with
  | nil => simp [insertByKey]
  | cons y ys ih =>
      have hfy := hf y (List.mem_cons_self y ys)
      have ih' := ih (fun a ha => hf a (List.mem_cons_of_mem _ ha))
      simp only [List.map_cons, insertByKey, hfx, hfy]
      by_cases hxy : key x ≤ key y
      · simp [if_pos hxy]
      · simp [if_neg hxy, ih']

theorem sortByKey_map_mem (key : α → Int) (f : α → α) (l : List α)
    (hf : ∀ a ∈ l, key (f a) = key a) :
    sortByKey key (l.map f) = (sortByKey key l).map f := by
  induction l with
  | nil => simp [sortByKey]
  | cons x xs ih =>
      have hfx := hf x (List.mem_cons_self x xs)
      have ih' := ih (fun a ha => hf a (List.mem_cons_of_mem _ ha))
      simp only [List.map_cons, sortByKey]
      rw [ih']
      refine insertByKey_map_mem key f x (sortByKey key xs) hfx ?_
      intro a ha
      exact hf a (List.mem_cons_of_mem _ ((sortByKey_perm key xs).subset ha))

theorem recalcUpdate_shape (s : Store) (c : String)
    (hnd : (s.transactions.map (fun t => t.id)).Nodup) :
    ∀ t ∈ s.transactions,
      recalcUpdate (customerUpdatedDocs s c) t = t ∨
      (t.customerId = c ∧ ∃ b : Int,
        recalcUpdate (customerUpdatedDocs s c) t =
          { t with type := normalizeTransactionType t.type, balanceAfter := b }) := by
  intro t ht
  unfold recalcUpdate
  cases hfind : (customerUpdatedDocs s c).find? (fun u => u.id == t.id) with
  | none => exact Or.inl (by rw [Option.getD_none])
  | some u =>
      right
      have hu : u ∈ customerUpdatedDocs s c := List.mem_of_find?_eq_some hfind
      obtain ⟨t0, ht0, b, hb⟩ := applyCustomerEntries_mem 0 (customerOrdered s c) u hu
      have ht0snap : t0 ∈ customerSnapshot s c :=
        (sortByKey_perm txnDateKey (customerSnapshot s c)).subset ht0
      have ht0mem : t0 ∈ s.transactions := (List.mem_filter.1 ht0snap).1
      have ht0c : t0.customerId = c := by
        have := (List.mem_filter.1 ht0snap).2
        simpa using this
      have huid : u.id = t.id := by simpa using List.find?_some hfind
      have ht0id : t0.id = t.id := by rw [← huid, hb]
      have ht0t : t0 = t :=
        List.inj_on_of_nodup_map hnd ht0mem ht ht0id
      subst ht0t
      exact ⟨ht0c, b, by rw [Option.getD_some, hb]⟩

theorem recalcPartyUpdate_shape (s : Store) (p : String)
    (hnd : (s.partyTransactions.map (fun m => m.id)).Nodup) :
    ∀ m ∈ s.partyTransactions,
      recalcPartyUpdate (partyUpdatedDocs s p) m = m ∨
      (m.partyId = p ∧ ∃ b : Int,
        recalcPartyUpdate (partyUpdatedDocs s p) m = { m with dueAfter := b }) := by
  intro m hm
  unfold recalcPartyUpdate
  cases hfind : (partyUpdatedDocs s p).find? (fun u => u.id == m.id) with
  | none => exact Or.inl (by rw [Option.getD_none])
  | some u =>
      right
      have hu : u ∈ partyUpdatedDocs s p := List.mem_of_find?_eq_some hfind
      obtain ⟨m0, hm0, b, hb⟩ := applyPartyEntries_mem 0 (partyOrdered s p) u hu
      have hm0snap : m0 ∈ partySnapshot s p :=
        (sortByKey_perm partyTxnDateKey (partySnapshot s p)).subset hm0
      have hm0mem : m0 ∈ s.partyTransactions := (List.mem_filter.1 hm0snap).1
      have hm0p : m0.partyId = p := by
        have := (List.mem_filter.1 hm0snap).2
        simpa using this
      have huid : u.id = m.id := by simpa using List.find?_some hfind
      have hm0id : m0.id = m.id := by rw [← huid, hb]
      have hm0m : m0 = m :=
        List.inj_on_of_nodup_map hnd hm0mem hm hm0id
      subst hm0m
      exact ⟨hm0p, b, by rw [Option.getD_some, hb]⟩

theorem recalcCustomer_idem (s s1 : Store) (c : String)
    (hnd : (s.transactions.map (fun t => t.id)).Nodup)
    (hrun : recalculateCustomerBalance c s = (Except.ok (), s1)) :
    recalculateCustomerBalance c s1 = (Except.ok (), s1) := by
  obtain ⟨hc, hs1⟩ := recalcCustomer_ok_elim c s s1 hrun
  have hshape := recalcUpdate_shape s c hnd
  have hFcust : ∀ t ∈ s.transactions,
      (recalcUpdate (customerUpdatedDocs s c) t).customerId = t.customerId := by
    intro t ht
    rcases hshape t ht with heq | ⟨-, b, heq⟩ <;> rw [heq]
  have hFkey : ∀ t ∈ s.transactions,
      txnDateKey (recalcUpdate (customerUpdatedDocs s c) t) = txnDateKey t := by
    intro t ht
    rcases hshape t ht with heq | ⟨-, b, heq⟩
    · rw [heq]
    · rw [heq]
      rfl
  have hsnap : customerSnapshot s1 c =
      (customerSnapshot s c).map (recalcUpdate (customerUpdatedDocs s c)) := by
    rw [hs1]
    show (s.transactions.map (recalcUpdate (customerUpdatedDocs s c))).filter _ = _
    rw [filter_map_comm]
    · rfl
    · intro t ht
      rw [hFcust t ht]
  have hord : customerOrdered s1 c = customerUpdatedDocs s c := by
    rw [customerOrdered, hsnap, sortByKey_map_mem]
    · exact map_lookup_eq (fun t => t.id) (customerOrdered s c) (customerUpdatedDocs s c)
        (applyCustomerEntries_map_id 0 (customerOrdered s c)) (ordered_id_nodup s c hnd)
    · intro a ha
      exact hFkey a (List.mem_filter.1 ha).1
  have hupd : customerUpdatedDocs s1 c = customerUpdatedDocs s c := by
    rw [customerUpdatedDocs, hord]
    exact applyCustomerEntries_idem 0 (customerOrdered s c)
  have hfin : customerFinal 0 (customerUpdatedDocs s c) =
      customerFinal 0 (customerOrdered s c) := by
    rw [customerFinal_eq_sum, customerFinal_eq_sum, customerUpdatedDocs,
      applyCustomerEntries_map_delta]
  have hlast : lastDate none ((customerUpdatedDocs s c).map (fun t => t.date)) =
      lastDate none ((customerOrdered s c).map (fun t => t.date)) := by
    rw [customerUpdatedDocs, applyCustomerEntries_map_date]
  have hc1 : s1.customers.any (fun cu => cu.id == c) = true := by
    rw [hs1]
    obtain ⟨cu, hcu, hcuid⟩ := List.any_eq_true.1 hc
    apply List.any_eq_true.2
    by_cases hcuc : cu.id = c
    · refine ⟨if cu.id = c then
          { cu with currentBalance := customerFinal 0 (customerOrdered s c),
                    lastActivity := lastDate none ((customerOrdered s c).map (fun t => t.date)) }
        else cu, List.mem_map_of_mem _ hcu, ?_⟩
      rw [if_pos hcuc]
      simpa using hcuc
    · simp at hcuid
      exact absurd hcuid hcuc
  rw [recalcCustomer_ok c s1 hc1, hord, hupd, hfin, hlast]
  refine congrArg (Prod.mk (Except.ok ())) ?_
  have htx : s1.transactions.map (recalcUpdate (customerUpdatedDocs s c)) = s1.transactions := by
    rw [hs1]
    show (s.transactions.map (recalcUpdate (customerUpdatedDocs s c))).map
        (recalcUpdate (customerUpdatedDocs s c)) = _
    rw [List.map_map]
    apply List.map_congr_left
    intro t ht
    exact recalcUpdate_idem (customerUpdatedDocs s c) t
  have hcust : s1.customers.map (fun cu =>
      if cu.id = c then
        { cu with currentBalance := customerFinal 0 (customerOrdered s c),
                  lastActivity := lastDate none ((customerOrdered s c).map (fun t => t.date)) }
      else cu) = s1.customers := by
    rw [hs1]
    show (s.customers.map _).map _ = _
    rw [List.map_map]
    apply List.map_congr_left
    intro cu hcu
    by_cases hid : cu.id = c
    · simp only [Function.comp_apply, if_pos hid]
    · simp only [Function.comp_apply, if_neg hid]
  calc { s1 with
          transactions := s1.transactions.map (recalcUpdate (customerUpdatedDocs s c)),
          customers := s1.customers.map (fun cu =>
            if cu.id = c then
              { cu with currentBalance := customerFinal 0 (customerOrdered s c),
                        lastActivity := lastDate none ((customerOrdered s c).map (fun t => t.date)) }
            else cu) }
      = { s1 with transactions := s1.transactions, customers := s1.customers } := by
        rw [htx, hcust]
    _ = s1 := by cases s1 ; rfl

theorem recalcParty_idem (s s1 : Store) (p : String)
    (hnd : (s.partyTransactions.map (fun m => m.id)).Nodup)
    (hrun : recalculatePartyDue p s = (Except.ok (), s1)) :
    recalculatePartyDue p s1 = (Except.ok (), s1) := by
  obtain ⟨hp, hs1⟩ := recalcParty_ok_elim p s s1 hrun
  have hshape := recalcPartyUpdate_shape s p hnd
  have hFparty : ∀ m ∈ s.partyTransactions,
      (recalcPartyUpdate (partyUpdatedDocs s p) m).partyId = m.partyId := by
    intro m hm
    rcases hshape m hm with heq | ⟨-, b, heq⟩ <;> rw [heq]
  have hFkey : ∀ m ∈ s.partyTransactions,
      partyTxnDateKey (recalcPartyUpdate (partyUpdatedDocs s p) m) = partyTxnDateKey m := by
    intro m hm
    rcases hshape m hm with heq | ⟨-, b, heq⟩
    · rw [heq]
    · rw [heq]
      rfl
  have hsnap : partySnapshot s1 p =
      (partySnapshot s p).map (recalcPartyUpdate (partyUpdatedDocs s p)) := by
    rw [hs1]
    show (s.partyTransactions.map (recalcPartyUpdate (partyUpdatedDocs s p))).filter _ = _
    rw [filter_map_comm]
    · rfl
    · intro m hm
      rw [hFparty m hm]
  have hord : partyOrdered s1 p = partyUpdatedDocs s p := by
    rw [partyOrdered, hsnap, sortByKey_map_mem]
    · exact map_lookup_eq (fun m => m.id) (partyOrdered s p) (partyUpdatedDocs s p)
        (applyPartyEntries_map_id 0 (partyOrdered s p)) (partyOrdered_id_nodup s p hnd)
    · intro a ha
      exact hFkey a (List.mem_filter.1 ha).1
  have hupd : partyUpdatedDocs s1 p = partyUpdatedDocs s p := by
    rw [partyUpdatedDocs, hord]
    exact applyPartyEntries_idem 0 (partyOrdered s p)
  have hfin : partyFinal 0 (partyUpdatedDocs s p) = partyFinal 0 (partyOrdered s p) := by
    rw [partyFinal_eq_sum, partyFinal_eq_sum, partyUpdatedDocs, applyPartyEntries_map_delta]
  have hlast : lastDate none ((partyUpdatedDocs s p).map (fun m => m.date)) =
      lastDate none ((partyOrdered s p).map (fun m => m.date)) := by
    rw [partyUpdatedDocs, applyPartyEntries_map_date]
  have hp1 : s1.parties.any (fun pa => pa.id == p) = true := by
    rw [hs1]
    obtain ⟨pa, hpa, hpaid⟩ := List.any_eq_true.1 hp
    apply List.any_eq_true.2
    by_cases hpap : pa.id = p
    · refine ⟨if pa.id = p then
          { pa with currentDue := partyFinal 0 (partyOrdered s p),
                    lastActivity := lastDate none ((partyOrdered s p).map (fun m => m.date)) }
        else pa, List.mem_map_of_mem _ hpa, ?_⟩
      rw [if_pos hpap]
      simpa using hpap
    · simp at hpaid
      exact absurd hpaid hpap
  rw [recalcParty_ok p s1 hp1, hord, hupd, hfin, hlast]
  refine congrArg (Prod.mk (Except.ok ())) ?_
  have htx : s1.partyTransactions.map (recalcPartyUpdate (partyUpdatedDocs s p)) =
      s1.partyTransactions := by
    rw [hs1]
    show (s.partyTransactions.map (recalcPartyUpdate (partyUpdatedDocs s p))).map
        (recalcPartyUpdate (partyUpdatedDocs s p)) = _
    rw [List.map_map]
    apply List.map_congr_left
    intro m hm
    exact recalcPartyUpdate_idem (partyUpdatedDocs s p) m
  have hpar : s1.parties.map (fun pa =>
      if pa.id = p then
        { pa with currentDue := partyFinal 0 (partyOrdered s p),
                  lastActivity := lastDate none ((partyOrdered s p).map (fun m => m.date)) }
      else pa) = s1.parties := by
    rw [hs1]
    show (s.parties.map _).map _ = _
    rw [List.map_map]
    apply List.map_congr_left
    intro pa hpa
    by_cases hid : pa.id = p
    · simp only [Function.comp_apply, if_pos hid]
    · simp only [Function.comp_apply, if_neg hid]
  calc { s1 with
          partyTransactions := s1.partyTransactions.map (recalcPartyUpdate (partyUpdatedDocs s p)),
          parties := s1.parties.map (fun pa =>
            if pa.id = p then
              { pa with currentDue := partyFinal 0 (partyOrdered s p),
                        lastActivity := lastDate none ((partyOrdered s p).map (fun m => m.date)) }
            else pa) }
      = { s1 with partyTransactions := s1.partyTransactions, parties := s1.parties } := by
        rw [htx, hpar]
    _ = s1 := by cases s1 ; rfl

/-- C7: the recalculators are idempotent: running the balance or due
recalculation a second time on the state it just produced succeeds and
changes nothing, since recalculation reads only each transaction type,
amount and date and never the previously stored derived fields. -/
theorem c7_recalculator_idempotent :
    (∀ (s s1 : Store) (c : String),
      (s.transactions.map (fun t => t.id)).Nodup →
      recalculateCustomerBalance c s = (Except.ok (), s1) →
      recalculateCustomerBalance c s1 = (Except.ok (), s1)) ∧
    (∀ (s s1 : Store) (p : String),
      (s.partyTransactions.map (fun m => m.id)).Nodup →
      recalculatePartyDue p s = (Except.ok (), s1) →
      recalculatePartyDue p s1 = (Except.ok (), s1)) :=
  ⟨fun s s1 c hnd hrun => recalcCustomer_idem s s1 c hnd hrun,
   fun s s1 p hnd hrun => recalcParty_idem s s1 p hnd hrun⟩

/-- Witness for C7: both recalculators, run twice on the demo store, return
the first output unchanged. -/
theorem c7_recalculator_idempotent_witness :
    recalculateCustomerBalance "c1" (recalculateCustomerBalance "c1" demoStore).2 =
      (Except.ok (), (recalculateCustomerBalance "c1" demoStore).2) ∧
    recalculatePartyDue "p1" (recalculatePartyDue "p1" demoStore).2 =
      (Except.ok (), (recalculatePartyDue "p1" demoStore).2) :=
  ⟨c7_recalculator_idempotent.1 demoStore (recalculateCustomerBalance "c1" demoStore).2 "c1"
      (by decide) (by decide),
   c7_recalculator_idempotent.2 demoStore (recalculatePartyDue "p1" demoStore).2 "p1"
      (by decide) (by decide)⟩

/-! Transport lemmas for the mirror obligation. -/

theorem mirrorObl_congr (t t' : TxnDoc) (ms : List PartyTxnDoc)
    (hid : t'.id = t.id) (hty : t'.type = t.type) (hpm : t'.paymentMode = t.paymentMode)
    (hpi : t'.partyId = t.partyId) (ham : t'.amount = t.amount) (hdt : t'.date = t.date)
    (hci : t'.customerId = t.customerId)
    (h : mirrorObligation t ms) : mirrorObligation t' ms := by
  have hdir : isDirect t' ↔ isDirect t := by
    unfold isDirect
    rw [hty, hpm, hpi]
  have hmm : ∀ m : PartyTxnDoc, mirrorMatches t' m ↔ mirrorMatches t m := by
    intro m
    unfold mirrorMatches
    rw [hpi, ham, hdt, hci]
  constructor
  · intro hd
    obtain ⟨hcount, hall⟩ := h.1 (hdir.1 hd)
    refine ⟨by rw [hid]; exact hcount, ?_⟩
    intro m hm hmid
    exact (hmm m).2 (hall m hm (hid ▸ hmid))
  · intro hd m hm hmid
    exact h.2 (fun hcontra => hd (hdir.2 hcontra)) m hm (hid ▸ hmid)

theorem mirrorObl_map (t : TxnDoc) (ms : List PartyTxnDoc) (G : PartyTxnDoc → PartyTxnDoc)
    (hG : ∀ m ∈ ms, (G m).id = m.id ∧ (G m).partyId = m.partyId ∧ (G m).type = m.type ∧
      (G m).amount = m.amount ∧ (G m).date = m.date ∧ (G m).customerId = m.customerId)
    (h : mirrorObligation t ms) : mirrorObligation t (ms.map G) := by
  have hcount : (ms.map G).countP (fun m => m.id == t.id) =
      ms.countP (fun m => m.id == t.id) := by
    rw [List.countP_map]
    apply List.countP_congr
    intro m hm
    simp only [Function.comp_apply, (hG m hm).1]
  have hmatch : ∀ m ∈ ms, mirrorMatches t (G m) ↔ mirrorMatches t m := by
    intro m hm
    unfold mirrorMatches
    rw [(hG m hm).2.1, (hG m hm).2.2.1, (hG m hm).2.2.2.1, (hG m hm).2.2.2.2.1,
      (hG m hm).2.2.2.2.2]
  constructor
  · intro hd
    obtain ⟨hc, hall⟩ := h.1 hd
    refine ⟨by rw [hcount]; exact hc, ?_⟩
    intro m' hm' hmid
    obtain ⟨m, hm, rfl⟩ := List.mem_map.1 hm'
    exact (hmatch m hm).2 (hall m hm (by rw [← (hG m hm).1]; exact hmid))
  · intro hd m' hm' hmid
    obtain ⟨m, hm, rfl⟩ := List.mem_map.1 hm'
    rw [(hG m hm).2.2.1]
    exact h.2 hd m hm (by rw [← (hG m hm).1]; exact hmid)

theorem mirrorObl_filter_ne (t : TxnDoc) (ms : List PartyTxnDoc) (r : String)
    (hne : t.id ≠ r) (h : mirrorObligation t ms) :
    mirrorObligation t (ms.filter (fun m => !(m.id == r))) := by
  have hcount : (ms.filter (fun m => !(m.id == r))).countP (fun m => m.id == t.id) =
      ms.countP (fun m => m.id == t.id) := by
    rw [List.countP_filter]
    apply List.countP_congr
    intro m hm
    by_cases hmt : m.id = t.id
    · simp [hmt, hne]
    · simp [hmt]
  constructor
  · intro hd
    obtain ⟨hc, hall⟩ := h.1 hd
    refine ⟨by rw [hcount]; exact hc, ?_⟩
    intro m hm hmid
    exact hall m (List.mem_filter.1 hm).1 hmid
  · intro hd m hm hmid
    exact h.2 hd m (List.mem_filter.1 hm).1 hmid

theorem mirrorObl_append_ne (t : TxnDoc) (ms : List PartyTxnDoc) (x : PartyTxnDoc)
    (hne : x.id ≠ t.id) (h : mirrorObligation t ms) :
    mirrorObligation t (ms ++ [x]) := by
  have hcount : (ms ++ [x]).countP (fun m => m.id == t.id) =
      ms.countP (fun m => m.id == t.id) := by
    rw [List.countP_append, List.countP_singleton]
    simp [hne]
  constructor
  · intro hd
    obtain ⟨hc, hall⟩ := h.1 hd
    refine ⟨by rw [hcount]; exact hc, ?_⟩
    intro m hm hmid
    rcases List.mem_append.1 hm with hm' | hm'
    · exact hall m hm' hmid
    · simp only [List.mem_singleton] at hm'
      exact absurd (hm' ▸ hmid) hne
  · intro hd m hm hmid
    rcases List.mem_append.1 hm with hm' | hm'
    · exact h.2 hd m hm' hmid
    · simp only [List.mem_singleton] at hm'
      exact absurd (hm' ▸ hmid) hne

/-! Effect of the recalculations on everything the mirror invariant and the
due consistency read. -/

theorem recalcCustomer_pointwise (c : String) (s s' : Store)
    (hnd : (s.transactions.map (fun t => t.id)).Nodup)
    (hcanon : canonicalTypes s.transactions)
    (h : recalculateCustomerBalance c s = (Except.ok (), s')) :
    ∃ F : TxnDoc → TxnDoc, s'.transactions = s.transactions.map F ∧
      ∀ t ∈ s.transactions, (F t).id = t.id ∧ (F t).customerId = t.customerId ∧
        (F t).type = t.type ∧ (F t).amount = t.amount ∧ (F t).date = t.date ∧
        (F t).paymentMode = t.paymentMode ∧ (F t).partyId = t.partyId := by
  obtain ⟨-, hs'⟩ := recalcCustomer_ok_elim c s s' h
  refine ⟨recalcUpdate (customerUpdatedDocs s c), by rw [hs'], ?_⟩
  intro t ht
  rcases recalcUpdate_shape s c hnd t ht with heq | ⟨-, b, heq⟩
  · rw [heq]
    exact ⟨rfl, rfl, rfl, rfl, rfl, rfl, rfl⟩
  · rw [heq]
    refine ⟨rfl, rfl, ?_, rfl, rfl, rfl, rfl⟩
    exact normalizeTransactionType_of_canonical t.type (hcanon t ht)

theorem recalcCustomer_frame (c : String) (s : Store) :
    (recalculateCustomerBalance c s).2.parties = s.parties ∧
    (recalculateCustomerBalance c s).2.partyTransactions = s.partyTransactions := by
  by_cases hc : s.customers.any (fun cu => cu.id == c) = true
  · rw [recalcCustomer_ok c s hc]
    exact ⟨rfl, rfl⟩
  · rw [recalcCustomer_err c s hc]
    exact ⟨rfl, rfl⟩

theorem recalcCustomer_ids (c : String) (s s' : Store)
    (hnd : (s.transactions.map (fun t => t.id)).Nodup)
    (hcanon : canonicalTypes s.transactions)
    (h : recalculateCustomerBalance c s = (Except.ok (), s')) :
    s'.transactions.map (fun t => t.id) = s.transactions.map (fun t => t.id) := by
  obtain ⟨F, hmap, hF⟩ := recalcCustomer_pointwise c s s' hnd hcanon h
  rw [hmap, List.map_map]
  apply List.map_congr_left
  intro t ht
  exact (hF t ht).1

theorem recalcCustomer_canonical (c : String) (s s' : Store)
    (hnd : (s.transactions.map (fun t => t.id)).Nodup)
    (hcanon : canonicalTypes s.transactions)
    (h : recalculateCustomerBalance c s = (Except.ok (), s')) :
    canonicalTypes s'.transactions := by
  obtain ⟨F, hmap, hF⟩ := recalcCustomer_pointwise c s s' hnd hcanon h
  intro t' ht'
  rw [hmap] at ht'
  obtain ⟨t, ht, rfl⟩ := List.mem_map.1 ht'
  rw [(hF t ht).2.2.1]
  exact hcanon t ht

theorem recalcCustomer_mirrorInv (c : String) (s s' : Store)
    (hnd : (s.transactions.map (fun t => t.id)).Nodup)
    (hcanon : canonicalTypes s.transactions)
    (h : recalculateCustomerBalance c s = (Except.ok (), s'))
    (hinv : MirrorInv s.transactions s.partyTransactions) :
    MirrorInv s'.transactions s'.partyTransactions := by
  obtain ⟨F, hmap, hF⟩ := recalcCustomer_pointwise c s s' hnd hcanon h
  have hms : s'.partyTransactions = s.partyTransactions := by
    have := (recalcCustomer_frame c s).2
    rw [h] at this
    exact this
  intro t' ht'
  rw [hmap] at ht'
  obtain ⟨t, ht, rfl⟩ := List.mem_map.1 ht'
  rw [hms]
  obtain ⟨h1, h2, h3, h4, h5, h6, h7⟩ := hF t ht
  exact mirrorObl_congr t (F t) s.partyTransactions h1 h3 h6 h7 h4 h5 h2 (hinv t ht)

theorem recalcParty_pointwise (p : String) (s s' : Store)
    (hnd : (s.partyTransactions.map (fun m => m.id)).Nodup)
    (h : recalculatePartyDue p s = (Except.ok (), s')) :
    ∃ G : PartyTxnDoc → PartyTxnDoc, s'.partyTransactions = s.partyTransactions.map G ∧
      ∀ m ∈ s.partyTransactions, (G m).id = m.id ∧ (G m).partyId = m.partyId ∧
        (G m).type = m.type ∧ (G m).amount = m.amount ∧ (G m).date = m.date ∧
        (G m).customerId = m.customerId ∧ (G m).note = m.note := by
  obtain ⟨-, hs'⟩ := recalcParty_ok_elim p s s' h
  refine ⟨recalcPartyUpdate (partyUpdatedDocs s p), by rw [hs'], ?_⟩
  intro m hm
  rcases recalcPartyUpdate_shape s p hnd m hm with heq | ⟨-, b, heq⟩
  · rw [heq]
    exact ⟨rfl, rfl, rfl, rfl, rfl, rfl, rfl⟩
  · rw [heq]
    exact ⟨rfl, rfl, rfl, rfl, rfl, rfl, rfl⟩

theorem recalcParty_frame (p : String) (s : Store) :
    (recalculatePartyDue p s).2.transactions = s.transactions ∧
    (recalculatePartyDue p s).2.customers = s.customers := by
  by_cases hp : s.parties.any (fun pa => pa.id == p) = true
  · rw [recalcParty_ok p s hp]
    exact ⟨rfl, rfl⟩
  · rw [recalcParty_err p s hp]
    exact ⟨rfl, rfl⟩

theorem recalcParty_mids (p : String) (s s' : Store)
    (hnd : (s.partyTransactions.map (fun m => m.id)).Nodup)
    (h : recalculatePartyDue p s = (Except.ok (), s')) :
    s'.partyTransactions.map (fun m => m.id) = s.partyTransactions.map (fun m => m.id) := by
  obtain ⟨G, hmap, hG⟩ := recalcParty_pointwise p s s' hnd h
  rw [hmap, List.map_map]
  apply List.map_congr_left
  intro m hm
  exact (hG m hm).1

theorem partyDelta_eq_of_fields (m m' : PartyTxnDoc)
    (hty : m'.type = m.type) (ham : m'.amount = m.amount) :
    partyDelta m' = partyDelta m := by
  unfold partyDelta
  rw [hty, ham]

theorem recalcParty_total (p q : String) (s s' : Store)
    (hnd : (s.partyTransactions.map (fun m => m.id)).Nodup)
    (h : recalculatePartyDue p s = (Except.ok (), s')) :
    partyLedgerTotal s'.partyTransactions q = partyLedgerTotal s.partyTransactions q := by
  obtain ⟨G, hmap, hG⟩ := recalcParty_pointwise p s s' hnd h
  rw [partyLedgerTotal, partyLedgerTotal, hmap, filter_map_comm]
  · rw [List.map_map]
    congr 1
    apply List.map_congr_left
    intro m hm
    have hm' := (List.mem_filter.1 hm).1
    exact partyDelta_eq_of_fields m (G m) (hG m hm').2.2.1 (hG m hm').2.2.2.1
  · intro m hm
    rw [(hG m hm).2.1]

theorem recalcParty_mirrorInv (p : String) (s s' : Store)
    (hnd : (s.partyTransactions.map (fun m => m.id)).Nodup)
    (h : recalculatePartyDue p s = (Except.ok (), s'))
    (hinv : MirrorInv s.transactions s.partyTransactions) :
    MirrorInv s'.transactions s'.partyTransactions := by
  obtain ⟨G, hmap, hG⟩ := recalcParty_pointwise p s s' hnd h
  have hts : s'.transactions = s.transactions := by
    have := (recalcParty_frame p s).1
    rw [h] at this
    exact this
  rw [hts, hmap]
  intro t ht
  refine mirrorObl_map t s.partyTransactions G ?_ (hinv t ht)
  intro m hm
  obtain ⟨h1, h2, h3, h4, h5, h6, -⟩ := hG m hm
  exact ⟨h1, h2, h3, h4, h5, h6⟩

theorem recalcParty_dueConsistent_self (p : String) (s s' : Store)
    (hnd : (s.partyTransactions.map (fun m => m.id)).Nodup)
    (h : recalculatePartyDue p s = (Except.ok (), s')) :
    dueConsistent s' p := by
  intro pa hpa hid
  rw [(recalcParty_party_fields p s s' h pa hpa hid).1]
  rw [partyFinal_eq_sum, recalcParty_total p p s s' hnd h]
  have hperm : ((partyOrdered s p).map partyDelta).sum
      = ((partySnapshot s p).map partyDelta).sum :=
    ((sortByKey_perm partyTxnDateKey (partySnapshot s p)).map partyDelta).sum_eq
  rw [hperm, partyLedgerTotal, partySnapshot]
  ring

theorem recalcParty_dueConsistent_other (p q : String) (s s' : Store)
    (hnd : (s.partyTransactions.map (fun m => m.id)).Nodup)
    (h : recalculatePartyDue p s = (Except.ok (), s'))
    (hq : q ≠ p) (hdc : dueConsistent s q) : dueConsistent s' q := by
  obtain ⟨-, hs'⟩ := recalcParty_ok_elim p s s' h
  intro pa' hpa' hid
  rw [recalcParty_total p q s s' hnd h]
  rw [hs'] at hpa'
  simp only [List.mem_map] at hpa'
  obtain ⟨pa, hpa, hpaeq⟩ := hpa'
  by_cases hpap : pa.id = p
  · rw [if_pos hpap] at hpaeq
    have : pa'.id = pa.id := by rw [← hpaeq]
    rw [hid, hpap] at this
    exact absurd this hq
  · rw [if_neg hpap] at hpaeq
    rw [← hpaeq]
    exact hdc pa hpa (by rw [← hpaeq] at hid; exact hid)

/-! Helpers for the mirror sync proof. -/

theorem andThen_ok (s : Store) (k : Store → Except AppError Unit × Store) :
    andThen (Except.ok (), s) k = k s := rfl

theorem andThen_err (e : AppError) (s : Store) (k : Store → Except AppError Unit × Store) :
    andThen (Except.error e, s) k = (Except.error e, s) := rfl

theorem partyTxn_eq_up_to_due (x y : PartyTxnDoc)
    (hid : x.id = y.id) (hpi : x.partyId = y.partyId) (hty : x.type = y.type)
    (ham : x.amount = y.amount) (hnt : x.note = y.note) (hdt : x.date = y.date)
    (hci : x.customerId = y.customerId) :
    x = { y with dueAfter := x.dueAfter } := by
  cases x
  cases y
  simp only [PartyTxnDoc.mk.injEq] at hid hpi hty ham hnt hdt hci ⊢
  exact ⟨hid, hpi, hty, ham, hnt, hdt, trivial, hci⟩

theorem filtered_ids_ne (ms : List PartyTxnDoc) (r : String) :
    ∀ x ∈ ms.filter (fun m => !(m.id == r)), x.id ≠ r := by
  intro x hx
  have := (List.mem_filter.1 hx).2
  simpa using this

theorem filtered_ids_nodup (ms : List PartyTxnDoc) (r : String)
    (hnd : (ms.map (fun m => m.id)).Nodup) :
    ((ms.filter (fun m => !(m.id == r))).map (fun m => m.id)).Nodup :=
  ((List.filter_sublist ms).map (fun m => m.id)).nodup hnd

theorem ids_ne_of_map_eq (l l' : List PartyTxnDoc) (r : String)
    (hids : l'.map (fun m => m.id) = l.map (fun m => m.id))
    (hne : ∀ y ∈ l, y.id ≠ r) : ∀ x ∈ l', x.id ≠ r := by
  intro x hx
  have hxid : x.id ∈ l.map (fun m => m.id) := by
    rw [← hids]
    exact List.mem_map_of_mem _ hx
  obtain ⟨y, hy, hyx⟩ := List.mem_map.1 hxid
  rw [← hyx]
  exact hne y hy

theorem nodup_ids_append_one (l : List PartyTxnDoc) (x : PartyTxnDoc)
    (hnd : (l.map (fun m => m.id)).Nodup) (hne : ∀ y ∈ l, y.id ≠ x.id) :
    ((l ++ [x]).map (fun m => m.id)).Nodup := by
  rw [List.map_append]
  refine List.Nodup.append hnd (by simp) ?_
  intro a ha hb
  obtain ⟨y, hy, rfl⟩ := List.mem_map.1 ha
  simp only [List.map_cons, List.map_nil, List.mem_singleton] at hb
  exact hne y hy hb

theorem setPartyTxn_append (s : Store) (docNew : PartyTxnDoc)
    (hnone : ∀ m ∈ s.partyTransactions, m.id ≠ docNew.id) :
    setPartyTxn s docNew = { s with partyTransactions := s.partyTransactions ++ [docNew] } := by
  unfold setPartyTxn
  rw [if_neg]
  simp only [List.any_eq_true, not_exists]
  intro m
  rw [not_and]
  intro hm hmid
  exact hnone m hm (by simpa using hmid)

theorem partyLedgerTotal_append_ne (ms : List PartyTxnDoc) (x : PartyTxnDoc) (q : String)
    (hne : x.partyId ≠ q) :
    partyLedgerTotal (ms ++ [x]) q = partyLedgerTotal ms q := by
  unfold partyLedgerTotal
  rw [List.filter_append]
  have hx : [x].filter (fun m => m.partyId == q) = [] := by simp [hne]
  rw [hx, List.append_nil]

theorem syncMirrorDelete_none (exId : String) (s : Store)
    (hfind : s.partyTransactions.find? (fun m => m.id == exId) = none) :
    syncMirrorDelete exId s = (Except.ok (), s) := by
  unfold syncMirrorDelete
  rw [hfind]

theorem syncMirrorDelete_some (exId : String) (s : Store) (prev : PartyTxnDoc)
    (hfind : s.partyTransactions.find? (fun m => m.id == exId) = some prev) :
    syncMirrorDelete exId s =
      (if prev.partyId = "" then
        (Except.ok (), { s with partyTransactions :=
          s.partyTransactions.filter (fun m => !(m.id == exId)) })
      else recalculatePartyDue prev.partyId
        { s with partyTransactions :=
          s.partyTransactions.filter (fun m => !(m.id == exId)) }) := by
  unfold syncMirrorDelete
  rw [hfind]

theorem syncMirrorCreate_empty (amount : Int) (note : Option String) (date : Int)
    (customerId mirrorId : String) (s2 : Store) :
    syncMirrorCreate "" amount note date customerId mirrorId s2 = (Except.ok (), s2) := by
  unfold syncMirrorCreate
  rw [if_pos rfl]

theorem syncMirrorCreate_nonempty (inputPartyId : String) (amount : Int)
    (note : Option String) (date : Int) (customerId mirrorId : String) (s2 : Store)
    (hip : inputPartyId ≠ "") :
    syncMirrorCreate inputPartyId amount note date customerId mirrorId s2 =
      recalculatePartyDue inputPartyId
        (setPartyTxn s2 (mirrorDoc inputPartyId amount note date customerId mirrorId)) := by
  unfold syncMirrorCreate
  rw [if_neg hip]

theorem mirrorDoc_id (inputPartyId : String) (amount : Int) (note : Option String)
    (date : Int) (customerId mirrorId : String) :
    (mirrorDoc inputPartyId amount note date customerId mirrorId).id = mirrorId := rfl

theorem createStep_effect (inputPartyId : String) (amount : Int) (note : Option String)
    (date : Int) (customerId mirrorId : String) (sMid s' : Store)
    (hndMid : (sMid.partyTransactions.map (fun m => m.id)).Nodup)
    (hne : ∀ m ∈ sMid.partyTransactions, m.id ≠ mirrorId)
    (h : syncMirrorCreate inputPartyId amount note date customerId mirrorId sMid =
      (Except.ok (), s')) :
    (inputPartyId = "" ∧ s' = sMid) ∨
    (inputPartyId ≠ "" ∧
      s'.transactions = sMid.transactions ∧ s'.customers = sMid.customers ∧
      (∃ G2 : PartyTxnDoc → PartyTxnDoc,
        (∀ m ∈ sMid.partyTransactions, (G2 m).id = m.id ∧ (G2 m).partyId = m.partyId ∧
          (G2 m).type = m.type ∧ (G2 m).amount = m.amount ∧ (G2 m).date = m.date ∧
          (G2 m).customerId = m.customerId) ∧
        ∃ dA : Int, s'.partyTransactions = sMid.partyTransactions.map G2 ++
          [{ mirrorDoc inputPartyId amount note date customerId mirrorId with
             dueAfter := dA }]) ∧
      dueConsistent s' inputPartyId ∧
      (∀ q : String, q ≠ inputPartyId → dueConsistent sMid q → dueConsistent s' q)) := by
  by_cases hip : inputPartyId = ""
  · subst hip
    rw [syncMirrorCreate_empty] at h
    exact Or.inl ⟨rfl, (congrArg Prod.snd h).symm⟩
  · right
    rw [syncMirrorCreate_nonempty _ _ _ _ _ _ _ hip] at h
    have hneDoc : ∀ m ∈ sMid.partyTransactions,
        m.id ≠ (mirrorDoc inputPartyId amount note date customerId mirrorId).id := by
      intro m hm
      rw [mirrorDoc_id]
      exact hne m hm
    rw [setPartyTxn_append sMid _ hneDoc] at h
    have hnd3 : (({ sMid with partyTransactions := sMid.partyTransactions ++
        [mirrorDoc inputPartyId amount note date customerId mirrorId] } : Store).partyTransactions.map
        (fun m => m.id)).Nodup :=
      nodup_ids_append_one sMid.partyTransactions _ hndMid hneDoc
    obtain ⟨G2, hmap2, hG2⟩ := recalcParty_pointwise inputPartyId _ s' hnd3 h
    have hframe := recalcParty_frame inputPartyId
      { sMid with partyTransactions := sMid.partyTransactions ++
        [mirrorDoc inputPartyId amount note date customerId mirrorId] }
    rw [h] at hframe
    refine ⟨hip, hframe.1, hframe.2, ?_, ?_, ?_⟩
    · have hlitmem : mirrorDoc inputPartyId amount note date customerId mirrorId ∈
          sMid.partyTransactions ++ [mirrorDoc inputPartyId amount note date customerId mirrorId] :=
        List.mem_append_right _ (List.mem_singleton_self _)
      refine ⟨G2, ?_, ?_⟩
      · intro m hm
        obtain ⟨h1, h2, h3, h4, h5, h6, -⟩ := hG2 m (List.mem_append_left _ hm)
        exact ⟨h1, h2, h3, h4, h5, h6⟩
      · obtain ⟨g1, g2, g3, g4, g5, g6, g7⟩ := hG2 _ hlitmem
        refine ⟨(G2 (mirrorDoc inputPartyId amount note date customerId mirrorId)).dueAfter, ?_⟩
        rw [hmap2]
        show (sMid.partyTransactions ++ [_]).map G2 = _
        rw [List.map_append]
        congr 1
        show [G2 _] = _
        rw [partyTxn_eq_up_to_due (G2 _) _ g1 g2 g3 g4 g7 g5 g6]
    · exact recalcParty_dueConsistent_self inputPartyId _ s' hnd3 h
    · intro q hq hdc
      have hdc3 : dueConsistent { sMid with partyTransactions := sMid.partyTransactions ++
          [mirrorDoc inputPartyId amount note date customerId mirrorId] } q := by
        intro pa hpa hid
        show pa.currentDue = partyLedgerTotal (sMid.partyTransactions ++
          [mirrorDoc inputPartyId amount note date customerId mirrorId]) q
        rw [partyLedgerTotal_append_ne]
        · exact hdc pa hpa hid
        · show inputPartyId ≠ q
          exact fun hcontra => hq hcontra.symm
      exact recalcParty_dueConsistent_other inputPartyId q _ s' hnd3 h hq hdc3

theorem sync_ok_effect (inputPartyId : String) (amount : Int) (note : Option String)
    (date : Int) (customerId : String) (exId exOld freshM : String) (s s' : Store)
    (hnd : (s.partyTransactions.map (fun m => m.id)).Nodup)
    (h : syncCustomerDirectPartyPayment inputPartyId amount note date customerId
      (some ⟨exId, exOld⟩) freshM s = (Except.ok (), s')) :
    s'.transactions = s.transactions ∧
    s'.customers = s.customers ∧
    (∃ G : PartyTxnDoc → PartyTxnDoc,
      (∀ m ∈ s.partyTransactions.filter (fun m => !(m.id == exId)),
        (G m).id = m.id ∧ (G m).partyId = m.partyId ∧ (G m).type = m.type ∧
        (G m).amount = m.amount ∧ (G m).date = m.date ∧ (G m).customerId = m.customerId) ∧
      ((inputPartyId = "" ∧ s'.partyTransactions =
          (s.partyTransactions.filter (fun m => !(m.id == exId))).map G) ∨
       (inputPartyId ≠ "" ∧ ∃ dA : Int, s'.partyTransactions =
          (s.partyTransactions.filter (fun m => !(m.id == exId))).map G ++
            [{ mirrorDoc inputPartyId amount note date customerId exId with
               dueAfter := dA }]))) ∧
    (inputPartyId ≠ "" → dueConsistent s' inputPartyId) ∧
    (∀ m0, s.partyTransactions.find? (fun m => m.id == exId) = some m0 →
      m0.partyId ≠ "" → dueConsistent s' m0.partyId) := by
  have hsync : syncCustomerDirectPartyPayment inputPartyId amount note date customerId
      (some ⟨exId, exOld⟩) freshM s =
      andThen (syncMirrorDelete exId s)
        (syncMirrorCreate inputPartyId amount note date customerId exId) := rfl
  rw [hsync] at h
  cases hfind : s.partyTransactions.find? (fun m => m.id == exId) with
  | none =>
      have hne : ∀ m ∈ s.partyTransactions, m.id ≠ exId := by
        intro m hm
        have := List.find?_eq_none.1 hfind m hm
        simpa using this
      have hfilter : s.partyTransactions.filter (fun m => !(m.id == exId)) =
          s.partyTransactions := by
        rw [List.filter_eq_self]
        intro m hm
        simpa using hne m hm
      rw [syncMirrorDelete_none exId s hfind, andThen_ok] at h
      rcases createStep_effect inputPartyId amount note date customerId exId s s' hnd hne h with
        ⟨hip, rfl⟩ | ⟨hip, hts, hcs, ⟨G2, hG2, dA, hms⟩, hdcN, -⟩
      · refine ⟨rfl, rfl, ⟨id, ?_, Or.inl ⟨hip, by rw [hfilter, List.map_id]⟩⟩, ?_, ?_⟩
        · intro m hm
          exact ⟨rfl, rfl, rfl, rfl, rfl, rfl⟩
        · intro hcontra
          exact absurd hip hcontra
        · intro m0 hm0 hq
          exact absurd hm0 (by simp)
      · refine ⟨hts, hcs, ⟨G2, ?_, Or.inr ⟨hip, dA, ?_⟩⟩, fun _ => hdcN, ?_⟩
        · rw [hfilter]
          exact hG2
        · rw [hfilter]
          exact hms
        · intro m0 hm0 hq
          exact absurd hm0 (by simp)
  | some prev =>
      rw [syncMirrorDelete_some exId s prev hfind] at h
      have hnd1 : ((({ s with partyTransactions :=
          s.partyTransactions.filter (fun m => !(m.id == exId)) } : Store)).partyTransactions.map
          (fun m => m.id)).Nodup :=
        filtered_ids_nodup s.partyTransactions exId hnd
      have hne1 : ∀ m ∈ (({ s with partyTransactions :=
          s.partyTransactions.filter (fun m => !(m.id == exId)) } : Store)).partyTransactions,
          m.id ≠ exId :=
        filtered_ids_ne s.partyTransactions exId
      by_cases hprev : prev.partyId = ""
      · rw [if_pos hprev, andThen_ok] at h
        rcases createStep_effect inputPartyId amount note date customerId exId _ s' hnd1 hne1 h with
          ⟨hip, rfl⟩ | ⟨hip, hts, hcs, ⟨G2, hG2, dA, hms⟩, hdcN, -⟩
        · refine ⟨rfl, rfl, ⟨id, ?_, Or.inl ⟨hip, by rw [List.map_id]⟩⟩, ?_, ?_⟩
          · intro m hm
            exact ⟨rfl, rfl, rfl, rfl, rfl, rfl⟩
          · intro hcontra
            exact absurd hip hcontra
          · intro m0 hm0 hq
            have : m0 = prev := (Option.some.inj hm0).symm
            rw [this, hprev] at hq
            exact absurd rfl hq
        · refine ⟨hts, hcs, ⟨G2, hG2, Or.inr ⟨hip, dA, hms⟩⟩, fun _ => hdcN, ?_⟩
          intro m0 hm0 hq
          have : m0 = prev := (Option.some.inj hm0).symm
          rw [this, hprev] at hq
          exact absurd rfl hq
      · rw [if_neg hprev] at h
        rcases hr : recalculatePartyDue prev.partyId
            { s with partyTransactions :=
              s.partyTransactions.filter (fun m => !(m.id == exId)) } with ⟨r1, s2⟩
        rw [hr] at h
        cases r1 with
        | error e =>
            rw [andThen_err] at h
            exact absurd (congrArg Prod.fst h) (by simp)
        | ok u =>
            cases u
            rw [andThen_ok] at h
            obtain ⟨G1, hmap1, hG1⟩ := recalcParty_pointwise prev.partyId _ s2 hnd1 hr
            have hmids : s2.partyTransactions.map (fun m => m.id) =
                (s.partyTransactions.filter (fun m => !(m.id == exId))).map (fun m => m.id) :=
              recalcParty_mids prev.partyId _ s2 hnd1 hr
            have hnd2 : (s2.partyTransactions.map (fun m => m.id)).Nodup := by
              rw [hmids]
              exact hnd1
            have hne2 : ∀ m ∈ s2.partyTransactions, m.id ≠ exId :=
              ids_ne_of_map_eq _ s2.partyTransactions exId hmids
                (filtered_ids_ne s.partyTransactions exId)
            have hframe2 := recalcParty_frame prev.partyId
              { s with partyTransactions :=
                s.partyTransactions.filter (fun m => !(m.id == exId)) }
            rw [hr] at hframe2
            have hdc2 : dueConsistent s2 prev.partyId :=
              recalcParty_dueConsistent_self prev.partyId _ s2 hnd1 hr
            rcases createStep_effect inputPartyId amount note date customerId exId s2 s'
                hnd2 hne2 h with
              ⟨hip, rfl⟩ | ⟨hip, hts, hcs, ⟨G2, hG2, dA, hms⟩, hdcN, hdcPres⟩
            · refine ⟨hframe2.1, hframe2.2, ⟨G1, ?_, Or.inl ⟨hip, hmap1⟩⟩, ?_, ?_⟩
              · intro m hm
                obtain ⟨h1, h2, h3, h4, h5, h6, -⟩ := hG1 m hm
                exact ⟨h1, h2, h3, h4, h5, h6⟩
              · intro hcontra
                exact absurd hip hcontra
              · intro m0 hm0 hq
                have hm0p : m0 = prev := (Option.some.inj hm0).symm
                rw [hm0p]
                exact hdc2
            · refine ⟨hts.trans hframe2.1, hcs.trans hframe2.2,
                ⟨fun m => G2 (G1 m), ?_, Or.inr ⟨hip, dA, ?_⟩⟩, fun _ => hdcN, ?_⟩
              · intro m hm
                obtain ⟨h1, h2, h3, h4, h5, h6, -⟩ := hG1 m hm
                have hmem2 : G1 m ∈ s2.partyTransactions := by
                  rw [hmap1]
                  exact List.mem_map_of_mem G1 hm
                obtain ⟨k1, k2, k3, k4, k5, k6⟩ := hG2 (G1 m) hmem2
                exact ⟨k1.trans h1, k2.trans h2, k3.trans h3, k4.trans h4,
                  k5.trans h5, k6.trans h6⟩
              · rw [hms, hmap1, List.map_map]
                rfl
              · intro m0 hm0 hq
                have hm0p : m0 = prev := (Option.some.inj hm0).symm
                subst hm0p
                by_cases hqip : m0.partyId = inputPartyId
                · rw [hqip]
                  exact hdcN
                · exact hdcPres m0.partyId hqip hdc2

theorem normalizePaymentMode_idem (r : String) :
    normalizePaymentMode (normalizePaymentMode r) = normalizePaymentMode r := by
  unfold normalizePaymentMode
  by_cases h : r = "ONLINE" ∨ r = "PARTY_DIRECT"
  · rw [if_pos h, if_pos h]
  · rw [if_neg h]
    decide

theorem find?_some_of_exists {p : α → Bool} {l : List α}
    (hx : ∃ a ∈ l, p a = true) : ∃ a, l.find? p = some a := by
  cases hf : l.find? p with
  | none =>
      obtain ⟨a, ha, hpa⟩ := hx
      exact absurd hpa (by simpa using List.find?_eq_none.1 hf a ha)
  | some a => exact ⟨a, rfl⟩

theorem txn_find?_self (l : List TxnDoc) (hnd : (l.map (fun t => t.id)).Nodup)
    (t : TxnDoc) (ht : t ∈ l) (tid : String) (hid : t.id = tid) :
    l.find? (fun u => u.id == tid) = some t := by
  cases hf : l.find? (fun u => u.id == tid) with
  | none =>
      have := List.find?_eq_none.1 hf t ht
      simp [hid] at this
  | some u =>
      have hu : u ∈ l := List.mem_of_find?_eq_some hf
      have huid : u.id = tid := by simpa using List.find?_some hf
      have : u = t := List.inj_on_of_nodup_map hnd hu ht (huid.trans hid.symm)
      rw [this]

theorem toRef_ok_elim (ref : String) (r : Except AppError Unit × Store) (v : String)
    (s' : Store) (h : toRef ref r = (Except.ok v, s')) :
    r = (Except.ok (), s') := by
  obtain ⟨r1, s1⟩ := r
  cases r1 with
  | error e =>
      have := congrArg Prod.fst h
      simp [toRef, Except.map] at this
  | ok u =>
      cases u
      have h2 := congrArg Prod.snd h
      simp only [toRef] at h2
      rw [h2]

theorem finish_effect (input : SaveTransactionInput) (ref oldD pid : String)
    (s1 s' : Store) (r : String)
    (h : saveTransactionFinish input ref oldD pid s1 = (Except.ok r, s')) :
    ∃ s2 : Store, recalculateCustomerBalance input.customerId s1 = (Except.ok (), s2) ∧
      ((input.type = TransactionType.PAYMENT ∧
         syncCustomerDirectPartyPayment pid input.amount input.note input.date
           input.customerId (some ⟨ref, oldD⟩) ref s2 = (Except.ok (), s')) ∨
       (input.type ≠ TransactionType.PAYMENT ∧ oldD ≠ "" ∧
         syncCustomerDirectPartyPayment "" input.amount none input.date
           input.customerId (some ⟨ref, oldD⟩) ref s2 = (Except.ok (), s')) ∨
       (input.type ≠ TransactionType.PAYMENT ∧ oldD = "" ∧ s' = s2)) := by
  rcases hr : recalculateCustomerBalance input.customerId s1 with ⟨r1, s2⟩
  cases r1 with
  | error e =>
      have heq : saveTransactionFinish input ref oldD pid s1 = (Except.error e, s2) := by
        unfold saveTransactionFinish
        rw [hr]
      rw [heq] at h
      exact absurd (congrArg Prod.fst h) (by simp)
  | ok u =>
      cases u
      have heq : saveTransactionFinish input ref oldD pid s1 =
          (if input.type = TransactionType.PAYMENT then
            toRef ref (syncCustomerDirectPartyPayment pid input.amount input.note
              input.date input.customerId (some ⟨ref, oldD⟩) ref s2)
          else if oldD ≠ "" then
            toRef ref (syncCustomerDirectPartyPayment "" input.amount none
              input.date input.customerId (some ⟨ref, oldD⟩) ref s2)
          else (Except.ok ref, s2)) := by
        unfold saveTransactionFinish
        rw [hr]
      rw [heq] at h
      refine ⟨s2, rfl, ?_⟩
      by_cases hty : input.type = TransactionType.PAYMENT
      · rw [if_pos hty] at h
        exact Or.inl ⟨hty, toRef_ok_elim ref _ r s' h⟩
      · rw [if_neg hty] at h
        by_cases hold : oldD ≠ ""
        · rw [if_pos hold] at h
          exact Or.inr (Or.inl ⟨hty, hold, toRef_ok_elim ref _ r s' h⟩)
        · rw [if_neg hold] at h
          have h2 := congrArg Prod.snd h
          exact Or.inr (Or.inr ⟨hty, by simpa using hold, h2.symm⟩)

theorem deleteMirrorStep_effect (tid pm pidq : String) (s2 s' : Store)
    (hndM2 : (s2.partyTransactions.map (fun m => m.id)).Nodup)
    (h : deleteTransactionMirrorStep tid pm pidq s2 = (Except.ok (), s')) :
    s'.transactions = s2.transactions ∧ s'.customers = s2.customers ∧
    ((pm ≠ "PARTY_DIRECT" ∧ s' = s2) ∨
     (pm = "PARTY_DIRECT" ∧
      (∃ G : PartyTxnDoc → PartyTxnDoc,
        (∀ m ∈ s2.partyTransactions.filter (fun m => !(m.id == tid)),
          (G m).id = m.id ∧ (G m).partyId = m.partyId ∧ (G m).type = m.type ∧
          (G m).amount = m.amount ∧ (G m).date = m.date ∧ (G m).customerId = m.customerId) ∧
        s'.partyTransactions =
          (s2.partyTransactions.filter (fun m => !(m.id == tid))).map G) ∧
      (∀ m' ∈ s'.partyTransactions, m'.id ≠ tid) ∧
      (pidq ≠ "" → dueConsistent s' pidq))) := by
  unfold deleteTransactionMirrorStep at h
  by_cases hpm : pm = "PARTY_DIRECT"
  · rw [if_pos hpm] at h
    have hbase : ∀ (s3 : Store),
        s3.partyTransactions = s2.partyTransactions.filter (fun m => !(m.id == tid)) →
        s3.transactions = s2.transactions → s3.customers = s2.customers →
        s3.parties = s2.parties →
        (if pidq = "" then (Except.ok (), s3) else recalculatePartyDue pidq s3) =
          (Except.ok (), s') →
        s'.transactions = s2.transactions ∧ s'.customers = s2.customers ∧
        (pm = "PARTY_DIRECT" ∧
          (∃ G : PartyTxnDoc → PartyTxnDoc,
            (∀ m ∈ s2.partyTransactions.filter (fun m => !(m.id == tid)),
              (G m).id = m.id ∧ (G m).partyId = m.partyId ∧ (G m).type = m.type ∧
              (G m).amount = m.amount ∧ (G m).date = m.date ∧ (G m).customerId = m.customerId) ∧
            s'.partyTransactions =
              (s2.partyTransactions.filter (fun m => !(m.id == tid))).map G) ∧
          (∀ m' ∈ s'.partyTransactions, m'.id ≠ tid) ∧
          (pidq ≠ "" → dueConsistent s' pidq)) := by
      intro s3 hms3 hts3 hcs3 hps3 h3
      have hnd3 : (s3.partyTransactions.map (fun m => m.id)).Nodup := by
        rw [hms3]
        exact filtered_ids_nodup s2.partyTransactions tid hndM2
      by_cases hq : pidq = ""
      · rw [if_pos hq] at h3
        have hs' : s' = s3 := (congrArg Prod.snd h3).symm
        subst hs'
        refine ⟨hts3, hcs3, hpm, ⟨id, ?_, by rw [List.map_id, hms3]⟩, ?_, ?_⟩
        · intro m hm
          exact ⟨rfl, rfl, rfl, rfl, rfl, rfl⟩
        · rw [hms3]
          exact filtered_ids_ne s2.partyTransactions tid
        · intro hcontra
          exact absurd hq hcontra
      · rw [if_neg hq] at h3
        obtain ⟨G, hmap, hG⟩ := recalcParty_pointwise pidq s3 s' hnd3 h3
        have hframe := recalcParty_frame pidq s3
        rw [h3] at hframe
        refine ⟨hframe.1.trans hts3, hframe.2.trans hcs3, hpm,
          ⟨G, ?_, by rw [hmap, hms3]⟩, ?_, ?_⟩
        · intro m hm
          obtain ⟨h1, h2, h3', h4, h5, h6, -⟩ := hG m (by rw [hms3]; exact hm)
          exact ⟨h1, h2, h3', h4, h5, h6⟩
        · have hmids := recalcParty_mids pidq s3 s' hnd3 h3
          refine ids_ne_of_map_eq s3.partyTransactions s'.partyTransactions tid hmids ?_
          rw [hms3]
          exact filtered_ids_ne s2.partyTransactions tid
        · intro hq2
          exact recalcParty_dueConsistent_self pidq s3 s' hnd3 h3
    by_cases hany : s2.partyTransactions.any (fun m => m.id == tid) = true
    · rw [if_pos hany] at h
      obtain ⟨a, b, c⟩ := hbase
        { s2 with partyTransactions := s2.partyTransactions.filter (fun m => !(m.id == tid)) }
        rfl rfl rfl rfl h
      exact ⟨a, b, Or.inr c⟩
    · rw [if_neg hany] at h
      have hfilter : s2.partyTransactions.filter (fun m => !(m.id == tid)) =
          s2.partyTransactions := by
        rw [List.filter_eq_self]
        intro m hm
        simp only [List.any_eq_true, not_exists] at hany
        have := hany m
        rw [not_and] at this
        simpa using this hm
      obtain ⟨a, b, c⟩ := hbase s2 hfilter.symm rfl rfl rfl h
      exact ⟨a, b, Or.inr c⟩
  · rw [if_neg hpm] at h
    have hs' : s' = s2 := (congrArg Prod.snd h).symm
    subst hs'
    exact ⟨rfl, rfl, Or.inl ⟨hpm, rfl⟩⟩

theorem transactionType_str_cases (ty : TransactionType) :
    TransactionType.str ty = "CREDIT" ∨ TransactionType.str ty = "PAYMENT" := by
  cases ty
  · exact Or.inl rfl
  · exact Or.inr rfl

theorem transactionType_str_ne_payment (ty : TransactionType)
    (h : ty ≠ TransactionType.PAYMENT) : TransactionType.str ty ≠ "PAYMENT" := by
  cases ty
  · decide
  · exact absurd rfl h

theorem txn_nodup_ids_append_one (l : List TxnDoc) (x : TxnDoc)
    (hnd : (l.map (fun t => t.id)).Nodup) (hne : ∀ y ∈ l, y.id ≠ x.id) :
    ((l ++ [x]).map (fun t => t.id)).Nodup := by
  rw [List.map_append]
  refine List.Nodup.append hnd (by simp) ?_
  intro a ha hb
  obtain ⟨y, hy, rfl⟩ := List.mem_map.1 ha
  simp only [List.map_cons, List.map_nil, List.mem_singleton] at hb
  exact hne y hy hb

theorem finish_c2 (input : SaveTransactionInput) (ref oldD pm pid : String)
    (s sW s' : Store) (r : String)
    (hndM : (s.partyTransactions.map (fun m => m.id)).Nodup)
    (hWnd : (sW.transactions.map (fun t => t.id)).Nodup)
    (hWcanon : canonicalTypes sW.transactions)
    (hWms : sW.partyTransactions = s.partyTransactions)
    (hWobl : ∀ t' ∈ sW.transactions, t'.id ≠ ref → mirrorObligation t' s.partyTransactions)
    (hWdoc : ∀ t' ∈ sW.transactions, t'.id = ref →
      t'.type = TransactionType.str input.type ∧ t'.paymentMode = pm ∧ t'.partyId = pid ∧
      t'.amount = input.amount ∧ t'.date = some input.date ∧ t'.customerId = input.customerId)
    (hpm : normalizePaymentMode pm = pm)
    (hpid : pid ≠ "" → pm = "PARTY_DIRECT")
    (hnoold : oldD = "" → input.type ≠ TransactionType.PAYMENT →
      ∀ m ∈ s.partyTransactions, m.id = ref → m.type ≠ "CUSTOMER_DIRECT")
    (hfin : saveTransactionFinish input ref oldD pid sW = (Except.ok r, s')) :
    MirrorInv s'.transactions s'.partyTransactions ∧
    (oldD ≠ "" → ∀ m0, s.partyTransactions.find? (fun m => m.id == ref) = some m0 →
      m0.partyId ≠ "" → dueConsistent s' m0.partyId) := by
  obtain ⟨s2, hrec, hbr⟩ := finish_effect input ref oldD pid sW s' r hfin
  obtain ⟨F, hFmap, hF⟩ := recalcCustomer_pointwise input.customerId sW s2 hWnd hWcanon hrec
  have hfr := recalcCustomer_frame input.customerId sW
  rw [hrec] at hfr
  have h2ms : s2.partyTransactions = s.partyTransactions := hfr.2.trans hWms
  have h2ndM : (s2.partyTransactions.map (fun m => m.id)).Nodup := by
    rw [h2ms]
    exact hndM
  have h2obl : ∀ t'' ∈ s2.transactions, t''.id ≠ ref →
      mirrorObligation t'' s.partyTransactions := by
    intro t'' ht'' hne
    rw [hFmap] at ht''
    obtain ⟨t1, ht1, rfl⟩ := List.mem_map.1 ht''
    obtain ⟨f1, f2, f3, f4, f5, f6, f7⟩ := hF t1 ht1
    have ht1ne : t1.id ≠ ref := by
      rw [← f1]
      exact hne
    exact mirrorObl_congr t1 (F t1) s.partyTransactions f1 f3 f6 f7 f4 f5 f2
      (hWobl t1 ht1 ht1ne)
  have h2doc : ∀ t'' ∈ s2.transactions, t''.id = ref →
      t''.type = TransactionType.str input.type ∧ t''.paymentMode = pm ∧ t''.partyId = pid ∧
      t''.amount = input.amount ∧ t''.date = some input.date ∧
      t''.customerId = input.customerId := by
    intro t'' ht'' hre
    rw [hFmap] at ht''
    obtain ⟨t1, ht1, rfl⟩ := List.mem_map.1 ht''
    obtain ⟨f1, f2, f3, f4, f5, f6, f7⟩ := hF t1 ht1
    obtain ⟨d1, d2, d3, d4, d5, d6⟩ := hWdoc t1 ht1 (by rw [← f1]; exact hre)
    exact ⟨f3.trans d1, f6.trans d2, f7.trans d3, f4.trans d4, f5.trans d5, f2.trans d6⟩
  rcases hbr with ⟨hty, hsync⟩ | ⟨hty, hold, hsync⟩ | ⟨hty, hold, hs'eq⟩
  · -- PAYMENT: the sync ran with the new partyId.
    obtain ⟨hts', hcs', ⟨G, hG, hdisj⟩, -, hdcOld⟩ :=
      sync_ok_effect pid input.amount input.note input.date input.customerId
        ref oldD ref s2 s' h2ndM hsync
    rw [h2ms] at hG hdisj hdcOld
    constructor
    · intro t'' ht''
      rw [hts'] at ht''
      by_cases hre : t''.id = ref
      · obtain ⟨d1, d2, d3, d4, d5, d6⟩ := h2doc t'' ht'' hre
        rcases hdisj with ⟨hpid0, hmsL⟩ | ⟨hpidN, dA, hmsR⟩
        · -- empty partyId: the payment is not direct, and no document is
          -- stored under its id after the sync.
          have hnd'' : ¬ isDirect t'' := by
            intro hdir
            exact hdir.2.2 (d3.trans hpid0)
          refine ⟨fun hd => absurd hd hnd'', ?_⟩
          intro hd m hm hmid
          rw [hmsL] at hm
          obtain ⟨m1, hm1, rfl⟩ := List.mem_map.1 hm
          have hne1 : m1.id ≠ ref := filtered_ids_ne s.partyTransactions ref m1 hm1
          exact absurd (((hG m1 hm1).1.symm.trans hmid).trans hre) hne1
        · -- non-empty partyId: the stored document is exactly the mirror.
          have hdir : isDirect t'' := by
            refine ⟨by rw [d1, hty]; rfl, ?_, ?_⟩
            · rw [d2, hpm]
              exact hpid hpidN
            · rw [d3]
              exact hpidN
          refine ⟨fun hd => ?_, fun hnd => absurd hdir hnd⟩
          constructor
          · rw [hmsR, List.countP_append]
            have hc1 : ((s.partyTransactions.filter
                (fun m => !(m.id == ref))).map G).countP (fun m => m.id == t''.id) = 0 := by
              rw [List.countP_eq_zero]
              intro m hm
              obtain ⟨m1, hm1, rfl⟩ := List.mem_map.1 hm
              have hne1 : m1.id ≠ ref := filtered_ids_ne s.partyTransactions ref m1 hm1
              simp only [beq_iff_eq]
              rw [(hG m1 hm1).1, hre]
              exact hne1
            rw [hc1, List.countP_singleton]
            simp [mirrorDoc, hre]
          · intro m hm hmid
            rw [hmsR] at hm
            rcases List.mem_append.1 hm with hm' | hm'
            · obtain ⟨m1, hm1, rfl⟩ := List.mem_map.1 hm'
              have hne1 : m1.id ≠ ref := filtered_ids_ne s.partyTransactions ref m1 hm1
              exact absurd (((hG m1 hm1).1.symm.trans hmid).trans hre) hne1
            · simp only [List.mem_singleton] at hm'
              subst hm'
              exact ⟨rfl, d3.symm, d4.symm, d5.symm, d6.symm⟩
      · have hobl := h2obl t'' ht'' hre
        rcases hdisj with ⟨-, hmsL⟩ | ⟨-, dA, hmsR⟩
        · rw [hmsL]
          exact mirrorObl_map t'' _ G hG
            (mirrorObl_filter_ne t'' s.partyTransactions ref hre hobl)
        · rw [hmsR]
          refine mirrorObl_append_ne t'' _ _ (fun h => hre h.symm)
            (mirrorObl_map t'' _ G hG
              (mirrorObl_filter_ne t'' s.partyTransactions ref hre hobl))
    · intro holdne m0 hm0 hq
      exact hdcOld m0 hm0 hq
  · -- CREDIT with a stale PARTY_DIRECT target: the sync ran with partyId "".
    obtain ⟨hts', hcs', ⟨G, hG, hdisj⟩, -, hdcOld⟩ :=
      sync_ok_effect "" input.amount none input.date input.customerId
        ref oldD ref s2 s' h2ndM hsync
    rw [h2ms] at hG hdisj hdcOld
    rcases hdisj with ⟨-, hmsL⟩ | ⟨habs, -⟩
    · constructor
      · intro t'' ht''
        rw [hts'] at ht''
        by_cases hre : t''.id = ref
        · obtain ⟨d1, -, -, -, -, -⟩ := h2doc t'' ht'' hre
          have hnd'' : ¬ isDirect t'' := fun hdir =>
            transactionType_str_ne_payment input.type hty (by rw [← d1]; exact hdir.1)
          refine ⟨fun hd => absurd hd hnd'', ?_⟩
          intro hd m hm hmid
          rw [hmsL] at hm
          obtain ⟨m1, hm1, rfl⟩ := List.mem_map.1 hm
          have hne1 : m1.id ≠ ref := filtered_ids_ne s.partyTransactions ref m1 hm1
          exact absurd (((hG m1 hm1).1.symm.trans hmid).trans hre) hne1
        · have hobl := h2obl t'' ht'' hre
          rw [hmsL]
          exact mirrorObl_map t'' _ G hG
            (mirrorObl_filter_ne t'' s.partyTransactions ref hre hobl)
      · intro holdne m0 hm0 hq
        exact hdcOld m0 hm0 hq
    · exact absurd rfl habs
  · -- CREDIT with no stale target: nothing past the recalculation runs.
    subst hs'eq
    constructor
    · intro t'' ht''
      rw [h2ms]
      by_cases hre : t''.id = ref
      · obtain ⟨d1, -, -, -, -, -⟩ := h2doc t'' ht'' hre
        have hnd'' : ¬ isDirect t'' := fun hdir =>
          transactionType_str_ne_payment input.type hty (by rw [← d1]; exact hdir.1)
        refine ⟨fun hd => absurd hd hnd'', ?_⟩
        intro hd m hm hmid
        exact hnoold hold hty m hm (hmid.trans hre)
      · exact h2obl t'' ht'' hre
    · intro holdne
      exact absurd hold holdne

theorem saveWrite_create_eq (input : SaveTransactionInput) (freshId pm pid : String)
    (s : Store) (hid : input.id = none) :
    saveTransactionWrite input freshId pm pid s =
      saveTransactionFinish input freshId "" pid
        { s with transactions := s.transactions ++
            [{ id := freshId, customerId := input.customerId,
               type := TransactionType.str input.type, amount := input.amount,
               note := trimString (input.note.getD ""), date := some input.date,
               balanceAfter := 0, paymentMode := pm, partyId := pid }] } := by
  unfold saveTransactionWrite
  rw [hid]

theorem saveWrite_edit_missing_eq (input : SaveTransactionInput)
    (freshId pm pid tid : String) (s : Store) (hid : input.id = some tid)
    (hfind : s.transactions.find? (fun t => t.id == tid) = none) :
    saveTransactionWrite input freshId pm pid s =
      (Except.error (AppError.notFound "Transaction not found."), s) := by
  unfold saveTransactionWrite
  rw [hid]
  simp only [hfind]

theorem saveWrite_edit_eq (input : SaveTransactionInput)
    (freshId pm pid tid : String) (s : Store) (ex : TxnDoc)
    (hid : input.id = some tid)
    (hfind : s.transactions.find? (fun t => t.id == tid) = some ex) :
    saveTransactionWrite input freshId pm pid s =
      saveTransactionFinish input tid
        (if ex.type = "PAYMENT" ∧ normalizePaymentMode ex.paymentMode = "PARTY_DIRECT"
         then ex.partyId else "")
        pid
        { s with transactions := s.transactions.map (fun t =>
            if t.id == tid then
              { t with customerId := input.customerId,
                       type := TransactionType.str input.type,
                       amount := input.amount,
                       note := trimString (input.note.getD ""),
                       date := some input.date,
                       paymentMode := pm,
                       partyId := pid }
            else t) } := by
  unfold saveTransactionWrite
  rw [hid]
  simp only [hfind]

theorem save_c2 (input : SaveTransactionInput) (freshId : String) (s s' : Store) (r : String)
    (hndT : (s.transactions.map (fun t => t.id)).Nodup)
    (hndM : (s.partyTransactions.map (fun m => m.id)).Nodup)
    (hcanon : canonicalTypes s.transactions)
    (hinv : MirrorInv s.transactions s.partyTransactions)
    (hfresh : input.id = none →
      (∀ t ∈ s.transactions, t.id ≠ freshId) ∧ (∀ m ∈ s.partyTransactions, m.id ≠ freshId))
    (hok : saveTransaction input freshId s = (Except.ok r, s')) :
    MirrorInv s'.transactions s'.partyTransactions ∧
    (∀ tid, input.id = some tid → ∀ tex ∈ s.transactions, tex.id = tid →
      tex.type = "PAYMENT" → normalizePaymentMode tex.paymentMode = "PARTY_DIRECT" →
      tex.partyId ≠ "" → dueConsistent s' tex.partyId) := by
  unfold saveTransaction at hok
  by_cases h1 : input.customerId = ""
  · rw [if_pos h1] at hok
    exact absurd (congrArg Prod.fst hok) (by simp)
  rw [if_neg h1] at hok
  by_cases h2 : input.amount ≤ 0
  · rw [if_pos h2] at hok
    exact absurd (congrArg Prod.fst hok) (by simp)
  rw [if_neg h2] at hok
  by_cases h3 : input.type = TransactionType.PAYMENT ∧
      normalizePaymentMode ((input.paymentMode.map PaymentMode.str).getD "CASH") =
        "PARTY_DIRECT" ∧
      (if normalizePaymentMode ((input.paymentMode.map PaymentMode.str).getD "CASH") =
          "PARTY_DIRECT" then trimString (input.partyId.getD "") else "") = ""
  · rw [if_pos h3] at hok
    exact absurd (congrArg Prod.fst hok) (by simp)
  rw [if_neg h3] at hok
  obtain ⟨pm, hpmdef⟩ : ∃ pm, pm =
      normalizePaymentMode ((input.paymentMode.map PaymentMode.str).getD "CASH") := ⟨_, rfl⟩
  rw [← hpmdef] at hok
  obtain ⟨pid, hpiddef⟩ : ∃ pid, pid =
      (if pm = "PARTY_DIRECT" then trimString (input.partyId.getD "") else "") := ⟨_, rfl⟩
  rw [← hpiddef] at hok
  have hpmI : normalizePaymentMode pm = pm := by
    rw [hpmdef]
    exact normalizePaymentMode_idem _
  have hpidI : pid ≠ "" → pm = "PARTY_DIRECT" := by
    intro hne
    by_cases hc : pm = "PARTY_DIRECT"
    · exact hc
    · rw [hpiddef, if_neg hc] at hne
      exact absurd rfl hne
  cases hid : input.id with
  | none =>
      rw [saveWrite_create_eq input freshId pm pid s hid] at hok
      obtain ⟨hfT, hfM⟩ := hfresh hid
      obtain ⟨nd, hnd_def⟩ : ∃ nd : TxnDoc, nd =
          { id := freshId, customerId := input.customerId,
            type := TransactionType.str input.type, amount := input.amount,
            note := trimString (input.note.getD ""), date := some input.date,
            balanceAfter := 0, paymentMode := pm, partyId := pid } := ⟨_, rfl⟩
      rw [← hnd_def] at hok
      have hndf : nd.id = freshId ∧ nd.type = TransactionType.str input.type ∧
          nd.paymentMode = pm ∧ nd.partyId = pid ∧ nd.amount = input.amount ∧
          nd.date = some input.date ∧ nd.customerId = input.customerId := by
        rw [hnd_def]
        exact ⟨rfl, rfl, rfl, rfl, rfl, rfl, rfl⟩
      have hWnd : ((s.transactions ++ [nd]).map (fun t => t.id)).Nodup :=
        txn_nodup_ids_append_one s.transactions nd hndT
          (fun y hy => by rw [hndf.1]; exact hfT y hy)
      have hWcanon : canonicalTypes (s.transactions ++ [nd]) := by
        intro t' ht'
        rcases List.mem_append.1 ht' with h | h
        · exact hcanon t' h
        · simp only [List.mem_singleton] at h
          subst h
          rw [hndf.2.1]
          exact transactionType_str_cases input.type
      have hWobl : ∀ t' ∈ s.transactions ++ [nd], t'.id ≠ freshId →
          mirrorObligation t' s.partyTransactions := by
        intro t' ht' hne
        rcases List.mem_append.1 ht' with h | h
        · exact hinv t' h
        · simp only [List.mem_singleton] at h
          subst h
          exact absurd hndf.1 hne
      have hWdoc : ∀ t' ∈ s.transactions ++ [nd], t'.id = freshId →
          t'.type = TransactionType.str input.type ∧ t'.paymentMode = pm ∧
          t'.partyId = pid ∧ t'.amount = input.amount ∧ t'.date = some input.date ∧
          t'.customerId = input.customerId := by
        intro t' ht' hre
        rcases List.mem_append.1 ht' with h | h
        · exact absurd hre (hfT t' h)
        · simp only [List.mem_singleton] at h
          subst h
          exact ⟨hndf.2.1, hndf.2.2.1, hndf.2.2.2.1, hndf.2.2.2.2.1,
            hndf.2.2.2.2.2.1, hndf.2.2.2.2.2.2⟩
      have hnoold : ("" : String) = "" → input.type ≠ TransactionType.PAYMENT →
          ∀ m ∈ s.partyTransactions, m.id = freshId → m.type ≠ "CUSTOMER_DIRECT" := by
        intro h0 hty m hm hmid
        exact absurd hmid (hfM m hm)
      have hmain := finish_c2 input freshId "" pm pid s
        { s with transactions := s.transactions ++ [nd] } s' r hndM hWnd hWcanon rfl
        hWobl hWdoc hpmI hpidI hnoold hok
      refine ⟨hmain.1, ?_⟩
      intro tid htid
      exact absurd htid (by simp)
  | some tid =>
      cases hfind : s.transactions.find? (fun t => t.id == tid) with
      | none =>
          rw [saveWrite_edit_missing_eq input freshId pm pid tid s hid hfind] at hok
          exact absurd (congrArg Prod.fst hok) (by simp)
      | some ex =>
          rw [saveWrite_edit_eq input freshId pm pid tid s ex hid hfind] at hok
          have hexmem : ex ∈ s.transactions := List.mem_of_find?_eq_some hfind
          have hexid : ex.id = tid := by simpa using List.find?_some hfind
          obtain ⟨oldD, holdDdef⟩ : ∃ o, o = (if ex.type = "PAYMENT" ∧
              normalizePaymentMode ex.paymentMode = "PARTY_DIRECT"
            then ex.partyId else "") := ⟨_, rfl⟩
          rw [← holdDdef] at hok
          obtain ⟨E, hE_def⟩ : ∃ E : TxnDoc → TxnDoc, E = (fun t =>
              if t.id == tid then
                { t with customerId := input.customerId,
                         type := TransactionType.str input.type,
                         amount := input.amount,
                         note := trimString (input.note.getD ""),
                         date := some input.date,
                         paymentMode := pm,
                         partyId := pid }
              else t) := ⟨_, rfl⟩
          rw [← hE_def] at hok
          have hEfacts : ∀ t : TxnDoc, (E t).id = t.id ∧ (t.id ≠ tid → E t = t) ∧
              (t.id = tid → (E t).type = TransactionType.str input.type ∧
                (E t).paymentMode = pm ∧ (E t).partyId = pid ∧
                (E t).amount = input.amount ∧ (E t).date = some input.date ∧
                (E t).customerId = input.customerId) := by
            intro t
            simp only [hE_def]
            by_cases hc : t.id = tid
            · simp [hc]
            · simp [hc]
          have hids : (s.transactions.map E).map (fun t => t.id) =
              s.transactions.map (fun t => t.id) := by
            rw [List.map_map]
            apply List.map_congr_left
            intro t ht
            exact (hEfacts t).1
          have hWnd : ((s.transactions.map E).map (fun t => t.id)).Nodup := by
            rw [hids]
            exact hndT
          have hWcanon : canonicalTypes (s.transactions.map E) := by
            intro t' ht'
            obtain ⟨t1, ht1, rfl⟩ := List.mem_map.1 ht'
            by_cases hc : t1.id = tid
            · rw [((hEfacts t1).2.2 hc).1]
              exact transactionType_str_cases input.type
            · rw [(hEfacts t1).2.1 hc]
              exact hcanon t1 ht1
          have hWobl : ∀ t' ∈ s.transactions.map E, t'.id ≠ tid →
              mirrorObligation t' s.partyTransactions := by
            intro t' ht' hne
            obtain ⟨t1, ht1, rfl⟩ := List.mem_map.1 ht'
            by_cases hc : t1.id = tid
            · exact absurd ((hEfacts t1).1.trans hc) hne
            · rw [(hEfacts t1).2.1 hc]
              exact hinv t1 ht1
          have hWdoc : ∀ t' ∈ s.transactions.map E, t'.id = tid →
              t'.type = TransactionType.str input.type ∧ t'.paymentMode = pm ∧
              t'.partyId = pid ∧ t'.amount = input.amount ∧ t'.date = some input.date ∧
              t'.customerId = input.customerId := by
            intro t' ht' hre
            obtain ⟨t1, ht1, rfl⟩ := List.mem_map.1 ht'
            exact (hEfacts t1).2.2 ((hEfacts t1).1.symm.trans hre)
          have hnoold : oldD = "" → input.type ≠ TransactionType.PAYMENT →
              ∀ m ∈ s.partyTransactions, m.id = tid → m.type ≠ "CUSTOMER_DIRECT" := by
            intro h0 hty m hm hmid
            rw [holdDdef] at h0
            by_cases hc : ex.type = "PAYMENT" ∧
                normalizePaymentMode ex.paymentMode = "PARTY_DIRECT"
            · rw [if_pos hc] at h0
              exact (hinv ex hexmem).2 (fun hdir => hdir.2.2 h0) m hm
                (hmid.trans hexid.symm)
            · exact (hinv ex hexmem).2 (fun hdir => hc ⟨hdir.1, hdir.2.1⟩) m hm
                (hmid.trans hexid.symm)
          have hmain := finish_c2 input tid oldD pm pid s
            { s with transactions := s.transactions.map E } s' r hndM hWnd hWcanon rfl
            hWobl hWdoc hpmI hpidI hnoold hok
          refine ⟨hmain.1, ?_⟩
          intro tid' htid' tex htex hteid htexty htexmode htexpid
          injection htid' with htt
          subst htt
          have hteq : tex = ex :=
            List.inj_on_of_nodup_map hndT htex hexmem (hteid.trans hexid.symm)
          subst hteq
          have holdD : oldD = tex.partyId := by
            rw [holdDdef]
            exact if_pos ⟨htexty, htexmode⟩
          have hdirex : isDirect tex := ⟨htexty, htexmode, htexpid⟩
          obtain ⟨hcount, hall⟩ := (hinv tex htex).1 hdirex
          have hpos : 0 < s.partyTransactions.countP (fun m => m.id == tex.id) := by
            rw [hcount]
            norm_num
          have hex2 : ∃ m ∈ s.partyTransactions, (m.id == tid) = true := by
            rw [← hteid]
            exact List.countP_pos_iff.1 hpos
          obtain ⟨m0, hm0⟩ := find?_some_of_exists hex2
          have hm0mem : m0 ∈ s.partyTransactions := List.mem_of_find?_eq_some hm0
          have hm0id : m0.id = tid := by simpa using List.find?_some hm0
          have hmatch := hall m0 hm0mem (hm0id.trans hteid.symm)
          have hm0pi : m0.partyId = tex.partyId := hmatch.2.1
          have hdc := hmain.2 (by rw [holdD]; exact htexpid) m0 hm0
            (by rw [hm0pi]; exact htexpid)
          rw [hm0pi] at hdc
          exact hdc

theorem andThen_ok_elim (r : Except AppError Unit × Store)
    (k : Store → Except AppError Unit × Store) (u : Unit) (s' : Store)
    (h : andThen r k = (Except.ok u, s')) :
    ∃ smid, r = (Except.ok (), smid) ∧ k smid = (Except.ok u, s') := by
  obtain ⟨r1, smid⟩ := r
  cases r1 with
  | error e =>
      rw [andThen_err] at h
      exact absurd (congrArg Prod.fst h) (by simp)
  | ok v =>
      cases v
      rw [andThen_ok] at h
      exact ⟨smid, rfl, h⟩

theorem delete_c2 (tid : String) (s s' : Store) (u : Unit)
    (hndT : (s.transactions.map (fun t => t.id)).Nodup)
    (hndM : (s.partyTransactions.map (fun m => m.id)).Nodup)
    (hcanon : canonicalTypes s.transactions)
    (hinv : MirrorInv s.transactions s.partyTransactions)
    (hok : deleteTransaction tid s = (Except.ok u, s')) :
    MirrorInv s'.transactions s'.partyTransactions ∧
    (∀ tex ∈ s.transactions, tex.id = tid → tex.type = "PAYMENT" →
      normalizePaymentMode tex.paymentMode = "PARTY_DIRECT" → tex.partyId ≠ "" →
      dueConsistent s' tex.partyId ∧ ∀ m' ∈ s'.partyTransactions, m'.id ≠ tid) := by
  cases u
  cases hfind : s.transactions.find? (fun t => t.id == tid) with
  | none =>
      have heq : deleteTransaction tid s = (Except.ok (), s) := by
        unfold deleteTransaction
        rw [hfind]
      rw [heq] at hok
      have hs' : s = s' := congrArg Prod.snd hok
      subst hs'
      refine ⟨hinv, ?_⟩
      intro tex htex hteid
      have hnone := List.find?_eq_none.1 hfind tex htex
      simp [hteid] at hnone
  | some t =>
      have heq : deleteTransaction tid s =
          andThen
            (if t.customerId = "" then (Except.ok (),
                { s with transactions := s.transactions.filter (fun v => !(v.id == tid)) })
             else recalculateCustomerBalance t.customerId
                { s with transactions := s.transactions.filter (fun v => !(v.id == tid)) })
            (deleteTransactionMirrorStep tid (normalizePaymentMode t.paymentMode)
              t.partyId) := by
        unfold deleteTransaction
        rw [hfind]
      rw [heq] at hok
      obtain ⟨smid, hstep1, hok2⟩ := andThen_ok_elim _ _ _ _ hok
      have htmem : t ∈ s.transactions := List.mem_of_find?_eq_some hfind
      have htid2 : t.id = tid := by simpa using List.find?_some hfind
      have hs1nd : ((s.transactions.filter (fun v => !(v.id == tid))).map
          (fun t => t.id)).Nodup :=
        ((List.filter_sublist s.transactions).map (fun t => t.id)).nodup hndT
      have hs1canon : canonicalTypes (s.transactions.filter (fun v => !(v.id == tid))) := by
        intro t' ht'
        exact hcanon t' (List.mem_filter.1 ht').1
      have hs1ids : ∀ t' ∈ s.transactions.filter (fun v => !(v.id == tid)), t'.id ≠ tid := by
        intro t' ht'
        have hp := (List.mem_filter.1 ht').2
        simpa using hp
      have hs1inv : ∀ t' ∈ s.transactions.filter (fun v => !(v.id == tid)),
          mirrorObligation t' s.partyTransactions := by
        intro t' ht'
        exact hinv t' (List.mem_filter.1 ht').1
      have hsm : smid.partyTransactions = s.partyTransactions ∧
          (∀ t'' ∈ smid.transactions, t''.id ≠ tid) ∧
          (∀ t'' ∈ smid.transactions, mirrorObligation t'' s.partyTransactions) := by
        by_cases hcid : t.customerId = ""
        · rw [if_pos hcid] at hstep1
          have hsm1 : { s with transactions :=
              s.transactions.filter (fun v => !(v.id == tid)) } = smid :=
            congrArg Prod.snd hstep1
          subst hsm1
          exact ⟨rfl, hs1ids, hs1inv⟩
        · rw [if_neg hcid] at hstep1
          obtain ⟨F, hFmap, hF⟩ :=
            recalcCustomer_pointwise t.customerId _ smid hs1nd hs1canon hstep1
          have hfr := recalcCustomer_frame t.customerId
            { s with transactions := s.transactions.filter (fun v => !(v.id == tid)) }
          rw [hstep1] at hfr
          refine ⟨hfr.2, ?_, ?_⟩
          · intro t'' ht''
            rw [hFmap] at ht''
            obtain ⟨t1, ht1, rfl⟩ := List.mem_map.1 ht''
            rw [(hF t1 ht1).1]
            exact hs1ids t1 ht1
          · intro t'' ht''
            rw [hFmap] at ht''
            obtain ⟨t1, ht1, rfl⟩ := List.mem_map.1 ht''
            obtain ⟨f1, f2, f3, f4, f5, f6, f7⟩ := hF t1 ht1
            exact mirrorObl_congr t1 (F t1) s.partyTransactions f1 f3 f6 f7 f4 f5 f2
              (hs1inv t1 ht1)
      obtain ⟨h2ms, h2ids, h2inv⟩ := hsm
      have h2ndM : (smid.partyTransactions.map (fun m => m.id)).Nodup := by
        rw [h2ms]
        exact hndM
      obtain ⟨hts', hcs', hdisj⟩ := deleteMirrorStep_effect tid
        (normalizePaymentMode t.paymentMode) t.partyId smid s' h2ndM hok2
      constructor
      · intro t'' ht''
        rw [hts'] at ht''
        have hne := h2ids t'' ht''
        have hobl := h2inv t'' ht''
        rcases hdisj with ⟨-, rfl⟩ | ⟨-, ⟨G, hG, hms⟩, -, -⟩
        · rw [h2ms]
          exact hobl
        · rw [h2ms] at hG hms
          rw [hms]
          exact mirrorObl_map t'' _ G hG
            (mirrorObl_filter_ne t'' s.partyTransactions tid hne hobl)
      · intro tex htex hteid htexty htexmode htexpid
        have hteq : tex = t :=
          List.inj_on_of_nodup_map hndT htex htmem (hteid.trans htid2.symm)
        subst hteq
        rcases hdisj with ⟨hpmne, -⟩ | ⟨-, -, hdel3, hdel4⟩
        · exact absurd htexmode hpmne
        · exact ⟨hdel4 htexpid, hdel3⟩

/-- C2: over a store with unique document ids, canonically typed stored
transactions and the mirror correspondence holding, every completed
saveTransaction (with the generated id fresh on a create) and every
completed deleteTransaction re-establish the mirror correspondence: each
direct PARTY_DIRECT payment owns exactly one matching CUSTOMER_DIRECT
party entry stored under its id and every other customer transaction owns
none; moreover, when the edited or deleted transaction previously was a
direct payment naming a party, that previous party ends with a recalculated
(ledger-consistent) due — also when the new state targets another party or
no party — and a deletion leaves no party entry under the deleted id. -/
theorem c2_mirror_sync (s : Store)
    (hndT : (s.transactions.map (fun t => t.id)).Nodup)
    (hndM : (s.partyTransactions.map (fun m => m.id)).Nodup)
    (hcanon : canonicalTypes s.transactions)
    (hinv : MirrorInv s.transactions s.partyTransactions) :
    (∀ (input : SaveTransactionInput) (freshId : String) (s' : Store) (r : String),
      (input.id = none → (∀ t ∈ s.transactions, t.id ≠ freshId) ∧
        (∀ m ∈ s.partyTransactions, m.id ≠ freshId)) →
      saveTransaction input freshId s = (Except.ok r, s') →
      MirrorInv s'.transactions s'.partyTransactions ∧
      (∀ tid, input.id = some tid → ∀ tex ∈ s.transactions, tex.id = tid →
        tex.type = "PAYMENT" → normalizePaymentMode tex.paymentMode = "PARTY_DIRECT" →
        tex.partyId ≠ "" → dueConsistent s' tex.partyId)) ∧
    (∀ (tid : String) (s' : Store) (u : Unit),
      deleteTransaction tid s = (Except.ok u, s') →
      MirrorInv s'.transactions s'.partyTransactions ∧
      (∀ tex ∈ s.transactions, tex.id = tid → tex.type = "PAYMENT" →
        normalizePaymentMode tex.paymentMode = "PARTY_DIRECT" → tex.partyId ≠ "" →
        dueConsistent s' tex.partyId ∧ ∀ m' ∈ s'.partyTransactions, m'.id ≠ tid)) := by
  constructor
  · intro input freshId s' r hfresh hok
    exact save_c2 input freshId s s' r hndT hndM hcanon hinv hfresh hok
  · intro tid s' u hok
    exact delete_c2 tid s s' u hndT hndM hcanon hinv hok

theorem c2_mirror_sync_witness :
    MirrorInv (deleteTransaction "t1" demoStoreC3).2.transactions
      (deleteTransaction "t1" demoStoreC3).2.partyTransactions ∧
    dueConsistent (deleteTransaction "t1" demoStoreC3).2 "p1" ∧
    (∀ m' ∈ (deleteTransaction "t1" demoStoreC3).2.partyTransactions, m'.id ≠ "t1") := by
  have h := (c2_mirror_sync demoStoreC3 (by decide) (by decide) (by decide) (by decide)).2
    "t1" (deleteTransaction "t1" demoStoreC3).2 () (by decide)
  have h2 := h.2 ⟨"t1", "c1", "PAYMENT", 300, "", some 1, -300, "PARTY_DIRECT", "p1"⟩
    (by decide) rfl rfl (by decide) (by decide)
  exact ⟨h.1, h2.1, h2.2⟩

end AmbeyLedger
